import Mathlib

/-!
Verification of the autocrud data-access core: a shallow embedding of the
storage adapters (file, sqlite translation, mongo translation), the join
executor, and the cache manager with dependency-aware invalidation, together
with proofs settling the frozen claims about the specification.

Modelling conventions:
* JavaScript runtime values are modelled by `Value` (null, booleans, numbers,
  strings, arrays, plain objects).  Numbers are modelled as integers: no claim
  under consideration depends on non-integral arithmetic.  JavaScript `===`
  on primitives is structural equality; on arrays/objects it is reference
  equality, which the structural `Value.beq` over-approximates (no claim
  compares composite values for identity).
* JavaScript objects are association lists in key-insertion order; property
  read is first-match lookup, property write replaces in place or appends.
* Asynchronous adapter calls are modelled as pure functions, and effectful
  call sequences (`executeJoin`'s secondary queries) are made explicit by
  returning the list of issued calls alongside the result.
-/

namespace Autocrud

/-- JSON-ish JavaScript value: the untyped records, filter operands and query
payloads the adapters manipulate. -/
inductive Value where
  | vNull
  | vBool (b : Bool)
  | vNum (n : Int)
  | vStr (s : String)
  | vArr (xs : List Value)
  | vObj (fields : List (String × Value))
deriving Repr, Inhabited

mutual

/-- Structural equality on values (JavaScript `===` restricted to the
structural reading, see the header note). -/
def Value.beq : Value → Value → Bool
  | .vNull, .vNull => true
  | .vBool a, .vBool b => a == b
  | .vNum a, .vNum b => a == b
  | .vStr a, .vStr b => a == b
  | .vArr xs, .vArr ys => Value.beqList xs ys
  | .vObj fs, .vObj gs => Value.beqFields fs gs
  | _, _ => false

def Value.beqList : List Value → List Value → Bool
  | [], [] => true
  | x :: xs, y :: ys => Value.beq x y && Value.beqList xs ys
  | _, _ => false

def Value.beqFields : List (String × Value) → List (String × Value) → Bool
  | [], [] => true
  | (k, v) :: fs, (l, w) :: gs => k == l && Value.beq v w && Value.beqFields fs gs
  | _, _ => false

end

instance : BEq Value := ⟨Value.beq⟩

mutual

theorem Value.beq_refl : ∀ v : Value, Value.beq v v = true
  | .vNull => rfl
  | .vBool a => by simp [Value.beq]
  | .vNum a => by simp [Value.beq]
  | .vStr a => by simp [Value.beq]
  | .vArr xs => by simp [Value.beq, Value.beqList_refl xs]
  | .vObj fs => by simp [Value.beq, Value.beqFields_refl fs]

theorem Value.beqList_refl : ∀ xs : List Value, Value.beqList xs xs = true
  | [] => rfl
  | x :: xs => by simp [Value.beqList, Value.beq_refl x, Value.beqList_refl xs]

theorem Value.beqFields_refl : ∀ fs : List (String × Value), Value.beqFields fs fs = true
  | [] => rfl
  | (k, v) :: fs => by simp [Value.beqFields, Value.beq_refl v, Value.beqFields_refl fs]

end

theorem Value.beq_refl' (v : Value) : (v == v) = true := Value.beq_refl v

/-- A record / document: a JavaScript object, association list in key order. -/
abbrev Doc := List (String × Value)

/-- JavaScript property read `doc[k]`: `none` models `undefined`. -/
def getField (doc : Doc) (k : String) : Option Value :=
  (doc.find? (fun p => p.1 == k)).map (·.2)

/-- JavaScript property write `doc[k] = v`: replaces the existing binding in
place, else appends a new one. -/
def setField (doc : Doc) (k : String) (v : Value) : Doc :=
  if doc.any (fun p => p.1 == k) then
    doc.map (fun p => if p.1 == k then (k, v) else p)
  else doc ++ [(k, v)]

/-- JavaScript `delete doc[k]` / rest-destructuring that drops key `k`. -/
def removeField (doc : Doc) (k : String) : Doc :=
  doc.filter (fun p => ¬ (p.1 == k))

/-- JavaScript truthiness of a value (`if (x)`). -/
def Value.truthy : Value → Bool
  | .vNull => false
  | .vBool b => b
  | .vNum n => n != 0
  | .vStr s => s ≠ ""
  | .vArr _ => true
  | .vObj _ => true

def Value.isArr : Value → Bool
  | .vArr _ => true
  | _ => false

/-- JavaScript `String(v)` coercion as used by the adapters' `contains`
translation (only primitive operands occur in practice). -/
def jsToString : Value → String
  | .vNull => "null"
  | .vBool b => if b then "true" else "false"
  | .vNum n => toString n
  | .vStr s => s
  | .vArr _ => ""
  | .vObj _ => ""

/-- Substring test over character lists, modelling `String.includes`. -/
def charsInclude (sub : List Char) : List Char → Bool
  | [] => sub.isEmpty
  | c :: rest => sub.isPrefixOf (c :: rest) || charsInclude sub rest

/-- JavaScript `s.includes(sub)`. -/
def strIncludes (s sub : String) : Bool :=
  charsInclude sub.toList s.toList

/-- JavaScript relational comparison `a > b` restricted to same-typed
primitives; mixed or non-primitive comparands compare `false` (as NaN-driven
comparisons would).  No claim exercises JS coercion corner cases. -/
def jsGtVal : Value → Value → Bool
  | .vNum a, .vNum b => a > b
  | .vStr a, .vStr b => b < a
  | _, _ => false

def jsLtVal : Value → Value → Bool
  | .vNum a, .vNum b => a < b
  | .vStr a, .vStr b => a < b
  | _, _ => false

/-- A filter entry's right-hand side: a plain literal means implicit equality,
a (non-array) object is a bag of operators (the runtime
`typeof v === "object" && !Array.isArray(v)` dispatch made into a tag,
as the spec's §9 design note prescribes). -/
inductive FilterVal where
  | lit (v : Value)
  | ops (l : List (String × Value))
deriving Repr, Inhabited

/-- Embeds `FindFilter`: field name → literal or operator object. -/
abbrev FindFilter := List (String × FilterVal)

structure Pagination where
  limit : Option Nat := none
  offset : Option Nat := none
deriving Repr, DecidableEq, Inhabited

structure SortSpec where
  field : Option String := none
  direction : Option String := none
deriving Repr, DecidableEq, Inhabited

structure FindOpts where
  filter : Option FindFilter := none
  pagination : Option Pagination := none
  sort : Option SortSpec := none
deriving Repr, Inhabited

/-- Primary-key generation strategy. -/
inductive PkStrategy where
  | uuid
  | sequence
deriving Repr, DecidableEq, Inhabited

structure PkConfig where
  auto : Bool
  strategy : PkStrategy
  start : Int
  step : Int
deriving Repr, Inhabited

/-- The slice of `NormalizedSchema` the data-access core reads. -/
structure Schema where
  name : String
  primaryKey : String
  timestamps : Bool
  pk : PkConfig
deriving Repr, Inhabited

namespace FileAdapter

/-- One operator test of `FileAdapter.matches`: the `switch (op)` body.
`eq` is strict equality, `in` demands an array operand containing the field
value, the comparisons use JS relational semantics, `contains` is substring
for strings and membership for arrays, and — exactly as in the source — an
unknown operator falls to `default: return false`, failing the match. -/
def matchOp (op : String) (dv : Option Value) (ov : Value) : Bool :=
  if op = "eq" then dv == some ov
  else if op = "in" then
    match ov with
    | .vArr xs => match dv with
      | some d => xs.contains d
      | none => false
    | _ => false
  else if op = "gt" then
    match dv with
    | some d => jsGtVal d ov
    | none => false
  else if op = "gte" then
    match dv with
    | some d => jsGtVal d ov || (d == ov)
    | none => false
  else if op = "lt" then
    match dv with
    | some d => jsLtVal d ov
    | none => false
  else if op = "lte" then
    match dv with
    | some d => jsLtVal d ov || (d == ov)
    | none => false
  else if op = "contains" then
    match dv with
    | some (.vStr s) => strIncludes s (jsToString ov)
    | some (.vArr xs) => xs.contains ov
    | _ => false
  else false

/-- Embeds `FileAdapter.matches(doc, filter)`: conjunction over the filter's entries;
a literal entry is strict equality against the field, an operator object is
the conjunction of its operator tests. -/
def docMatches (doc : Doc) (filter : Option FindFilter) : Bool :=
  match filter with
  | none => true
  | some f =>
      f.all fun p =>
        let dv := getField doc p.1
        match p.2 with
        | .lit v => dv == some v
        | .ops l => l.all fun q => matchOp q.1 dv q.2

/-- Stable insertion used to model `Array.prototype.sort` (stable since
ES2019): a new element goes after every element the comparator deems ≤ it. -/
def stableInsert (le : Doc → Doc → Bool) (x : Doc) : List Doc → List Doc
  | [] => [x]
  | y :: ys => if le y x then y :: stableInsert le x ys else x :: y :: ys

def stableSort (le : Doc → Doc → Bool) (l : List Doc) : List Doc :=
  l.foldl (fun acc x => stableInsert le x acc) []

/-- The sort comparator `(a, b) => (a[f] > b[f] ? dir : a[f] < b[f] ? -dir : 0)`
expressed as a "comes no later than" test for the stable sort. -/
def sortLe (f : String) (desc : Bool) (a b : Doc) : Bool :=
  let av := (getField a f).getD Value.vNull
  let bv := (getField b f).getD Value.vNull
  if desc then ¬ jsLtVal av bv else ¬ jsGtVal av bv

/-- Embeds `FileAdapter.sortDocs`. -/
def sortDocs (arr : List Doc) (sort : Option SortSpec) : List Doc :=
  match sort with
  | none => arr
  | some s =>
    match s.field with
    | none => arr
    | some f => stableSort (sortLe f (s.direction = some "desc")) arr

/-- Embeds `FileAdapter.find` over the in-memory table: filter, sort, then
`slice(offset, offset + limit)` with defaults `limit = 50`, `offset = 0`. -/
def find (data : List Doc) (opts : FindOpts) : List Doc :=
  let filtered := data.filter (fun d => docMatches d opts.filter)
  let sorted := sortDocs filtered opts.sort
  let limit := ((opts.pagination.map (·.limit)).getD none).getD 50
  let offset := ((opts.pagination.map (·.offset)).getD none).getD 0
  (sorted.drop offset).take limit

/-- JS `Map` as an ordered association list keyed by `Value` (SameValueZero
keying, structural on primitives). -/
abbrev IdMap := List (Value × Doc)

/-- Embeds `Map.prototype.set`: overwrite in place or append. -/
def mapSet (m : IdMap) (k : Value) (v : Doc) : IdMap :=
  if m.any (fun p => p.1 == k) then
    m.map (fun p => if p.1 == k then (k, v) else p)
  else m ++ [(k, v)]

/-- Embeds `Map.prototype.get`. -/
def mapGet (m : IdMap) (k : Value) : Option Doc :=
  (m.find? (fun p => p.1 == k)).map (·.2)

/-- The file adapter's in-memory table for one schema: the ordered scan list
plus the by-primary-key index. -/
structure Store where
  data : List Doc
  byId : IdMap
deriving Repr, Inhabited

/-- Embeds `FileAdapter.findById`. -/
def findById (store : Store) (id : Value) : Option Doc :=
  mapGet store.byId id

/-- Embeds `FileAdapter.nextSeq`: reads the per-schema counter (falling back to
`pk.start`), post-increments it by `pk.step`. -/
def nextSeq (schema : Schema) (seqNext : Option Int) : Int × Option Int :=
  let current := seqNext.getD schema.pk.start
  (current, some (current + schema.pk.step))

/-- Embeds `FileAdapter.insert`, with the effectful inputs (generated uuid, current
timestamp) passed as parameters and the persisted store returned.  Mirrors the
source: resolve the id (auto-generating only when the document lacks one),
spread the document with the id written back, stamp timestamps, push onto the
scan list and overwrite the id index entry. -/
def insert (schema : Schema) (seqNext : Option Int) (store : Store) (doc : Doc)
    (uuid : String) (now : String) : Store × Doc × Option Int :=
  let pk := schema.primaryKey
  let id0 := getField doc pk
  let idAndSeq :=
    match id0 with
    | none =>
      if schema.pk.auto then
        match schema.pk.strategy with
        | .uuid => (some (Value.vStr uuid), seqNext)
        | .sequence =>
          let (cur, seq') := nextSeq schema seqNext
          (some (Value.vNum cur), seq')
      else (none, seqNext)
    | some v => (some v, seqNext)
  let toInsert :=
    match idAndSeq.1 with
    | none => doc
    | some v => setField doc pk v
  let toInsert :=
    if schema.timestamps then
      setField (setField toInsert "createdAt" (Value.vStr now)) "updatedAt" (Value.vStr now)
    else toInsert
  let byId :=
    match getField toInsert pk with
    | some key => mapSet store.byId key toInsert
    | none => store.byId
  (⟨store.data ++ [toInsert], byId⟩, toInsert, idAndSeq.2)

end FileAdapter


namespace Join

/-- One relation of a `JoinSpec` (`joinExecutor.ts`). -/
structure Relation where
  schema : String
  localField : String
  foreignField : String
  as : String
  type : String
deriving Repr, DecidableEq, Inhabited

/-- Embeds `JoinSpec` from `joinExecutor.ts`. -/
structure JoinSpec where
  name : String
  base : String
  relations : List Relation
deriving Repr, Inhabited

/-- Embeds `RelationOptions`: per-relation filter/sort/pagination. -/
structure RelationOptions where
  filter : Option FindFilter := none
  sort : Option SortSpec := none
  pagination : Option Pagination := none
deriving Repr, Inhabited

/-- The options object `executeJoin` receives: a base query plus per-alias
relation options. -/
structure JoinOpts where
  filter : Option FindFilter := none
  pagination : Option Pagination := none
  sort : Option SortSpec := none
  relations : Option (List (String × RelationOptions)) := none
deriving Inhabited

/-- The schema catalog (`NormalizedSchemas`), an object keyed by name. -/
abbrev Schemas := List (String × Schema)

def lookupSchema (schemas : Schemas) (name : String) : Option Schema :=
  (schemas.find? (fun p => p.1 == name)).map (·.2)

/-- A pure model of `adapter.find`: the only adapter operation `executeJoin`
issues. -/
abbrev DBFind := Schema → FindOpts → List Doc

/-- One issued `adapter.find` call, recorded for the cost-accounting claims:
the schema name it targets and the options passed. -/
structure FindCall where
  schema : String
  opts : FindOpts
deriving Inhabited

/-- The find options `executeJoin` forwards for the base query (the
filter/sort/pagination slice of its own options object). -/
def baseFindOpts (opts : JoinOpts) : FindOpts :=
  ⟨opts.filter, opts.pagination, opts.sort⟩

/-- Embeds `opts.relations?.[rel.as]`. -/
def relOptsFor (opts : JoinOpts) (a : String) : Option RelationOptions :=
  match opts.relations with
  | none => none
  | some l => (l.find? (fun p => p.1 == a)).map (·.2)

/-- Embeds `Array.from(new Set(baseRows.map(b => b[localField]).filter(v => v !== undefined)))`:
the distinct defined local-field values, first occurrences kept. -/
def distinctLocalValues (baseRows : List Doc) (localField : String) : List Value :=
  ((baseRows.map (fun b => getField b localField)).filterMap id).eraseDups

/-- The batched relation filter of `executeJoin` line 604:
`{[rel.foreignField]: {in: values}, ...(relOpts?.filter ?? {})}`.
JavaScript spread: a relation-filter entry with the same key replaces the
join-key constraint (later spread wins). -/
def combinedFilter (foreignField : String) (values : List Value)
    (relFilter : Option FindFilter) : FindFilter :=
  let baseEntry : FindFilter := [(foreignField, .ops [("in", Value.vArr values)])]
  let rf := relFilter.getD []
  baseEntry.filter (fun p => ¬ rf.any (fun q => q.1 == p.1)) ++ rf

/-- The `index` map partitioning the relation result by `foreignField` value
(a JS `Map` keyed possibly by `undefined`). -/
def buildIndex (foreignField : String) (rows : List Doc) :
    List (Option Value × List Doc) :=
  rows.foldl
    (fun idx fr =>
      let key := getField fr foreignField
      if idx.any (fun p => p.1 == key) then
        idx.map (fun p => if p.1 == key then (p.1, p.2 ++ [fr]) else p)
      else idx ++ [(key, [fr])])
    []

def indexGet (idx : List (Option Value × List Doc)) (key : Option Value) :
    Option (List Doc) :=
  (idx.find? (fun p => p.1 == key)).map (·.2)

/-- Attach one relation to one output row: look up the row's matches by its
`localField` value (empty when absent), apply relation-level sort, then
relation-level pagination (`limit` defaulting to the match count, `offset`
to 0), and store the array under the alias. -/
def attachRelation (rel : Relation) (relOpts : Option RelationOptions)
    (idx : List (Option Value × List Doc)) (row : Doc) : Doc :=
  let key := getField row rel.localField
  let ms := (indexGet idx key).getD []
  let ms :=
    match relOpts with
    | none => ms
    | some ro =>
      match ro.sort with
      | none => ms
      | some s =>
        match s.field with
        | none => ms
        | some f => FileAdapter.stableSort (FileAdapter.sortLe f (s.direction = some "desc")) ms
  let ms :=
    match relOpts with
    | none => ms
    | some ro =>
      match ro.pagination with
      | none => ms
      | some p => (ms.drop (p.offset.getD 0)).take (p.limit.getD (ms.drop (p.offset.getD 0)).length)
  setField row rel.as (Value.vArr (ms.map Value.vObj))

/-- The relation loop of `executeJoin`, accumulating the issued `find` calls.
For each relation in order: skip the query when no base row carries the local
field (attaching empty arrays); otherwise issue exactly one batched `find`
with `combinedFilter` and no sort/pagination, partition, and attach. -/
def processRelations (schemas : Schemas) (adapter : DBFind) (opts : JoinOpts)
    (baseRows : List Doc) :
    List Relation → List Doc → Except String (List Doc × List FindCall)
  | [], out => .ok (out, [])
  | rel :: rest, out =>
    match lookupSchema schemas rel.schema with
    | none => .error "JOIN_ERROR: foreign schema not found for join"
    | some foreignSchema =>
      let values := distinctLocalValues baseRows rel.localField
      if values.isEmpty then
        let out' := out.map (fun row => setField row rel.as (Value.vArr []))
        processRelations schemas adapter opts baseRows rest out'
      else
        let relOpts := relOptsFor opts rel.as
        let cf := combinedFilter rel.foreignField values (relOpts.bind (fun ro => ro.filter))
        let fopts : FindOpts := ⟨some cf, none, none⟩
        let foreignRows := adapter foreignSchema fopts
        let idx := buildIndex rel.foreignField foreignRows
        let out' := out.map (attachRelation rel relOpts idx)
        match processRelations schemas adapter opts baseRows rest out' with
        | .ok (rows, calls) => .ok (rows, ⟨rel.schema, fopts⟩ :: calls)
        | .error e => .error e

/-- Embeds `executeJoin`: resolve the base rows with the forwarded base query; if the
base result set is empty return empty immediately; otherwise clone each base
row and process the relations in order. The second component records every
`adapter.find` issued, in order. -/
def executeJoin (join : JoinSpec) (opts : JoinOpts) (schemas : Schemas)
    (adapter : DBFind) : Except String (List Doc × List FindCall) :=
  match lookupSchema schemas join.base with
  | none => .error "JOIN_ERROR: base schema not found for join"
  | some baseSchema =>
    let baseRows := adapter baseSchema (baseFindOpts opts)
    let baseCall : FindCall := ⟨join.base, baseFindOpts opts⟩
    if baseRows.isEmpty then .ok ([], [baseCall])
    else
      let out := baseRows.map (fun b => b)
      match processRelations schemas adapter opts baseRows join.relations out with
      | .ok (rows, calls) => .ok (rows, baseCall :: calls)
      | .error e => .error e

/-- The call `processRelations` issues for one relation, when it issues one. -/
def relCallOf (opts : JoinOpts) (baseRows : List Doc) (rel : Relation) :
    Option FindCall :=
  let values := distinctLocalValues baseRows rel.localField
  if values.isEmpty then none
  else
    some ⟨rel.schema,
      ⟨some (combinedFilter rel.foreignField values ((relOptsFor opts rel.as).bind (fun ro => ro.filter))),
        none, none⟩⟩

theorem processRelations_spec (schemas : Schemas) (adapter : DBFind)
    (opts : JoinOpts) (baseRows : List Doc) :
    ∀ (rels : List Relation) (out : List Doc),
      (∀ rel ∈ rels, (lookupSchema schemas rel.schema).isSome = true) →
      ∃ rows, processRelations schemas adapter opts baseRows rels out =
        .ok (rows, rels.filterMap (relCallOf opts baseRows))
  | [], out, _ => ⟨out, rfl⟩
  | rel :: rest, out, h => by
    have hrel : (lookupSchema schemas rel.schema).isSome = true := h rel (by simp)
    obtain ⟨fs, hfs⟩ := Option.isSome_iff_exists.mp hrel
    have hrest : ∀ r ∈ rest, (lookupSchema schemas r.schema).isSome = true :=
      fun r hr => h r (by simp [hr])
    by_cases hv : (distinctLocalValues baseRows rel.localField).isEmpty = true
    · obtain ⟨rows, hrows⟩ := processRelations_spec schemas adapter opts baseRows rest
        (out.map (fun row => setField row rel.as (Value.vArr []))) hrest
      exact ⟨rows, by simp [processRelations, hfs, hv, relCallOf, hrows]⟩
    · obtain ⟨rows, hrows⟩ := processRelations_spec schemas adapter opts baseRows rest
        (out.map (attachRelation rel (relOptsFor opts rel.as)
          (buildIndex rel.foreignField
            (adapter fs ⟨some (combinedFilter rel.foreignField
              (distinctLocalValues baseRows rel.localField)
              ((relOptsFor opts rel.as).bind (fun ro => ro.filter))), none, none⟩)))) hrest
      exact ⟨rows, by simp [processRelations, hfs, hv, relCallOf, hrows]⟩

end Join


namespace Cache

/-- Embeds `CacheEntry = {value, expiresAt}` of the TTL memory cache. -/
structure Entry (A : Type) where
  value : A
  expiresAt : Nat

/-- Embeds `CacheManager` state: the enabled flag and TTL from the config, the
memory cache's key-value map, and the two invalidation indexes
(schema name -> keys, schema name -> record id -> keys). -/
structure CacheManager (A : Type) where
  enabled : Bool
  ttlMs : Nat
  store : List (String × Entry A)
  schemaKeys : List (String × List String)
  itemKeys : List (String × List (String × List String))

variable {A : Type}

/-- Embeds `MemoryCache.get` with lazy eviction: an expired entry is deleted and
reported absent. -/
def storeGet (store : List (String × Entry A)) (now : Nat) (key : String) :
    Option (Entry A) × List (String × Entry A) :=
  match store.find? (fun p => p.1 == key) with
  | none => (none, store)
  | some pe =>
    if now > pe.2.expiresAt then (none, store.filter (fun p => ¬ (p.1 == key)))
    else (some pe.2, store)

/-- Embeds `MemoryCache.set`: overwrite in place or append. -/
def storeSet (store : List (String × Entry A)) (key : String) (e : Entry A) :
    List (String × Entry A) :=
  if store.any (fun p => p.1 == key) then
    store.map (fun p => if p.1 == key then (key, e) else p)
  else store ++ [(key, e)]

/-- Embeds `MemoryCache.del`. -/
def storeDel (store : List (String × Entry A)) (key : String) :
    List (String × Entry A) :=
  store.filter (fun p => ¬ (p.1 == key))

/-- Whether the memory cache currently holds an entry under `key`. -/
def storeMem (store : List (String × Entry A)) (key : String) : Bool :=
  store.any (fun p => p.1 == key)

/-- Read a registration set out of an invalidation index (absent -> empty). -/
def lookupSet (l : List (String × List String)) (k : String) : List String :=
  ((l.find? (fun p => p.1 == k)).map (·.2)).getD []

/-- Get-or-create the set for `k` and add `v` (a JS `Set`, kept deduplicated
in insertion order). -/
def addToSet (l : List (String × List String)) (k v : String) :
    List (String × List String) :=
  if l.any (fun p => p.1 == k) then
    l.map (fun p =>
      if p.1 == k then (p.1, if p.2.contains v then p.2 else p.2 ++ [v]) else p)
  else l ++ [(k, [v])]

/-- Embeds `set.clear()` on the set registered under `k`, when present. -/
def clearSet (l : List (String × List String)) (k : String) :
    List (String × List String) :=
  if l.any (fun p => p.1 == k) then
    l.map (fun p => if p.1 == k then (p.1, ([] : List String)) else p)
  else l

/-- Embeds `CacheManager.registerKey`. -/
def registerKey (cm : CacheManager A) (schemaName key : String)
    (id : Option String) : CacheManager A :=
  let schemaKeys := addToSet cm.schemaKeys schemaName key
  let itemKeys :=
    match id with
    | none => cm.itemKeys
    | some i =>
      if cm.itemKeys.any (fun p => p.1 == schemaName) then
        cm.itemKeys.map (fun p =>
          if p.1 == schemaName then (p.1, addToSet p.2 i key) else p)
      else cm.itemKeys ++ [(schemaName, addToSet [] i key)]
  { cm with schemaKeys := schemaKeys, itemKeys := itemKeys }

/-- Embeds `CacheManager.getOrSet`, with the asynchronous `compute` modelled by the
value it would produce; the returned `Bool` records whether `compute` was
invoked (the call-count instrumentation of the spec's testable properties).
Disabled caching always computes; a present unexpired entry is returned
without computing; a miss computes, stores under the TTL, and registers the
key against `meta`'s schema (and record id when given). -/
def getOrSet (cm : CacheManager A) (now : Nat) (key : String) (computed : A)
    (meta : Option (String × Option String)) : A × Bool × CacheManager A :=
  if cm.enabled = false then (computed, true, cm)
  else
    match storeGet cm.store now key with
    | (some e, store') => (e.value, false, { cm with store := store' })
    | (none, store') =>
      let store2 := storeSet store' key ⟨computed, now + cm.ttlMs⟩
      let cm2 := { cm with store := store2 }
      let cm3 :=
        match meta with
        | none => cm2
        | some m => registerKey cm2 m.1 key m.2
      (computed, true, cm3)

/-- Embeds `CacheManager.invalidateSchema`: delete every key registered under the
schema name, clear that registration set, and clear the whole per-id map of
that schema. -/
def invalidateSchema (cm : CacheManager A) (schemaName : String) :
    CacheManager A :=
  let keys := lookupSet cm.schemaKeys schemaName
  let store := keys.foldl storeDel cm.store
  let schemaKeys := clearSet cm.schemaKeys schemaName
  let itemKeys :=
    if cm.itemKeys.any (fun p => p.1 == schemaName) then
      cm.itemKeys.map (fun p =>
        if p.1 == schemaName then (p.1, ([] : List (String × List String))) else p)
    else cm.itemKeys
  { cm with store := store, schemaKeys := schemaKeys, itemKeys := itemKeys }

/-- Embeds `CacheManager.invalidateById`: delete only the keys registered under the
specific record id, then drop that id's set. -/
def invalidateById (cm : CacheManager A) (schemaName id : String) :
    CacheManager A :=
  match (cm.itemKeys.find? (fun p => p.1 == schemaName)).map (·.2) with
  | none => cm
  | some m =>
    match (m.find? (fun q => q.1 == id)).map (·.2) with
    | none => cm
    | some set =>
      let store := set.foldl storeDel cm.store
      let itemKeys := cm.itemKeys.map (fun p =>
        if p.1 == schemaName then (p.1, p.2.filter (fun q => ¬ (q.1 == id))) else p)
      { cm with store := store, itemKeys := itemKeys }

end Cache

namespace CRUD

open Cache Join

/-- The join dependency table `getCRUD` precomputes: for each join, register
the synthetic tag `join:<name>` against the base schema and every relation
schema (deduplicated). -/
def buildJoinDeps (joins : List JoinSpec) : List (String × List String) :=
  joins.foldl
    (fun deps j =>
      (j.base :: j.relations.map (fun r => r.schema)).foldl
        (fun d rel => addToSet d rel ("join:" ++ j.name)) deps)
    []

/-- The cache-invalidation sequence every mutation bound by `getCRUD`
(insert, update, delete) performs on the one CacheManager it owns:
`invalidateSchema(name)`, `invalidateById(name, id)`, then
`invalidateSchema(tag)` for every join tag the dependency table lists for the
schema. -/
def mutationInvalidate {A : Type} (cm : CacheManager A)
    (deps : List (String × List String)) (name id : String) : CacheManager A :=
  let cm1 := invalidateSchema cm name
  let cm2 := invalidateById cm1 name id
  (lookupSet deps name).foldl invalidateSchema cm2

/-- The cached join read `functions.join.<name>` performs: `getOrSet` keyed by
the request fingerprint, registered under the synthetic schema `join:<name>`. -/
def joinRead {A : Type} (cm : CacheManager A) (now : Nat) (name key : String)
    (computed : A) : A × Bool × CacheManager A :=
  getOrSet cm now key computed (some ("join:" ++ name, none))

end CRUD


/-- Whether an option is nullish (JavaScript `x ?? y` falls through on
`undefined` and `null`). -/
def isNullish : Option Value → Bool
  | none => true
  | some .vNull => true
  | some _ => false

namespace MongoAdapter

/-- A translated MongoDB condition: a literal (implicit equality) or an
operator sub-document of `$`-operators. -/
inductive MongoCond where
  | direct (v : Value)
  | subops (l : List (String × Value))
deriving Repr, Inhabited

/-- The `switch (op)` body of `MongoAdapter.toMongoFilter` building the `sub`
document: known operators assign a `$`-key (`in` wraps a non-array operand
into a singleton array), `contains` assigns `$regex`/`$options`, and the
`default: break` skips unknown operators. -/
def mongoOpStep (sub : List (String × Value)) (op : String) (ov : Value) :
    List (String × Value) :=
  if op = "eq" then setField sub "$eq" ov
  else if op = "in" then
    setField sub "$in" (match ov with | .vArr xs => .vArr xs | v => .vArr [v])
  else if op = "gt" then setField sub "$gt" ov
  else if op = "gte" then setField sub "$gte" ov
  else if op = "lt" then setField sub "$lt" ov
  else if op = "lte" then setField sub "$lte" ov
  else if op = "contains" then
    setField (setField sub "$regex" (.vStr (jsToString ov))) "$options" (.vStr "i")
  else sub

def toMongoSub (l : List (String × Value)) : List (String × Value) :=
  l.foldl (fun sub q => mongoOpStep sub q.1 q.2) []

/-- Embeds `MongoAdapter.toMongoFilter`. -/
def toMongoFilter (filter : Option FindFilter) : List (String × MongoCond) :=
  match filter with
  | none => []
  | some f =>
    f.map (fun p =>
      (p.1, match p.2 with
            | .lit v => MongoCond.direct v
            | .ops l => MongoCond.subops (toMongoSub l)))

/-- Modelled from the spec: the document-store engine that evaluates the
translated query is an external backend (no MongoDB source is under `src/`),
so its matching of the emitted `$`-operators follows the spec §4.1 operator
semantics — `eq` exact match, `in` set membership, ordering comparisons,
`contains`/`$regex` (case-insensitive) substring. -/
def mongoOpMatches (op : String) (dv : Option Value) (ov : Value) : Bool :=
  if op = "$eq" then dv == some ov
  else if op = "$in" then
    match ov with
    | .vArr xs => match dv with
      | some d => xs.contains d
      | none => false
    | _ => false
  else if op = "$gt" then
    match dv with
    | some d => jsGtVal d ov
    | none => false
  else if op = "$gte" then
    match dv with
    | some d => jsGtVal d ov || (d == ov)
    | none => false
  else if op = "$lt" then
    match dv with
    | some d => jsLtVal d ov
    | none => false
  else if op = "$lte" then
    match dv with
    | some d => jsLtVal d ov || (d == ov)
    | none => false
  else if op = "$regex" then
    match dv with
    | some (.vStr sv) => strIncludes sv (jsToString ov)
    | _ => false
  else true

def mongoCondMatches (dv : Option Value) : MongoCond → Bool
  | .direct v => dv == some v
  | .subops l => l.all (fun q => mongoOpMatches q.1 dv q.2)

/-- Modelled from the spec: the rows the document store returns for a
translated query (see `mongoOpMatches`). -/
def mongoFind (data : List Doc) (q : List (String × MongoCond)) : List Doc :=
  data.filter (fun d => q.all (fun p => mongoCondMatches (getField d p.1) p.2))

/-- The timestamp stamping of `MongoAdapter.insert`: `createdAt`/`updatedAt`
are kept when already present (`?? now`). -/
def stampTimestamps (schema : Schema) (doc : Doc) (now : String) : Doc :=
  if schema.timestamps then
    let t1 :=
      if isNullish (getField doc "createdAt") then
        setField doc "createdAt" (Value.vStr now)
      else doc
    if isNullish (getField t1 "updatedAt") then
      setField t1 "updatedAt" (Value.vStr now)
    else t1
  else doc

/-- The primary-key step of `MongoAdapter.insert`: a missing primary key on an
`auto` schema is filled with a generated uuid — unconditionally, whatever
`pk.strategy` says (the source comment reads "uuid only for Mongo"). -/
def assignPk (schema : Schema) (doc : Doc) (uuid : String) : Doc :=
  match getField doc schema.primaryKey with
  | none => if schema.pk.auto then setField doc schema.primaryKey (Value.vStr uuid) else doc
  | some _ => doc

/-- Embeds `if (toInsert[pk]) toInsert._id = toInsert[pk]`. -/
def setInternalId (schema : Schema) (doc : Doc) : Doc :=
  match getField doc schema.primaryKey with
  | some v => if v.truthy then setField doc "_id" v else doc
  | none => doc

/-- The document `MongoAdapter.insert` persists and returns (the returned
record is the rest-destructuring that strips `_id`). -/
def insertDoc (schema : Schema) (doc : Doc) (uuid : String) (now : String) : Doc :=
  removeField (setInternalId schema (assignPk schema (stampTimestamps schema doc now) uuid)) "_id"

end MongoAdapter

namespace SqliteAdapter

/-- Double-quote an identifier as the source's template literals do. -/
def quoteId (k : String) : String := "\"" ++ k ++ "\""

/-- The `switch (op)` body of `SqliteAdapter.buildWhere` for one operator
entry, pushing onto the accumulated `(parts, params)`: a non-array or empty
`in` operand pushes the contradiction `1=0`, `contains` becomes `LIKE` with a
`%`-wrapped parameter, and the `default: break` pushes nothing. -/
def buildWhereOp (k : String) (acc : List String × List Value)
    (op : String) (ov : Value) : List String × List Value :=
  if op = "eq" then (acc.1 ++ [quoteId k ++ " = ?"], acc.2 ++ [ov])
  else if op = "in" then
    match ov with
    | .vArr xs =>
      if xs.isEmpty then (acc.1 ++ ["1=0"], acc.2)
      else
        (acc.1 ++ [quoteId k ++ " IN (" ++
          String.intercalate "," (xs.map (fun _ => "?")) ++ ")"], acc.2 ++ xs)
    | _ => (acc.1 ++ ["1=0"], acc.2)
  else if op = "gt" then (acc.1 ++ [quoteId k ++ " > ?"], acc.2 ++ [ov])
  else if op = "gte" then (acc.1 ++ [quoteId k ++ " >= ?"], acc.2 ++ [ov])
  else if op = "lt" then (acc.1 ++ [quoteId k ++ " < ?"], acc.2 ++ [ov])
  else if op = "lte" then (acc.1 ++ [quoteId k ++ " <= ?"], acc.2 ++ [ov])
  else if op = "contains" then
    (acc.1 ++ [quoteId k ++ " LIKE ?"], acc.2 ++ [Value.vStr ("%" ++ jsToString ov ++ "%")])
  else acc

/-- Embeds `SqliteAdapter.buildWhere`: the WHERE clause and bound parameters for a
filter. -/
def buildWhere (filter : Option FindFilter) : String × List Value :=
  match filter with
  | none => ("", [])
  | some f =>
    if f.isEmpty then ("", [])
    else
      let pp :=
        f.foldl
          (fun acc p =>
            match p.2 with
            | .lit v => (acc.1 ++ [quoteId p.1 ++ " = ?"], acc.2 ++ [v])
            | .ops l => l.foldl (fun a q => buildWhereOp p.1 a q.1 q.2) acc)
          ([], [])
      (if pp.1.isEmpty then "" else "WHERE " ++ String.intercalate " AND " pp.1, pp.2)

end SqliteAdapter

namespace FileAdapter

/-- The file-system and JSON inputs of `FileAdapter.load` for one schema
table: each read either fails with an error code (`inl`, e.g. "ENOENT") or
yields text (`inr`); `parse` is `JSON.parse`, kept abstract. -/
structure LoadEnv where
  primary : Sum String String
  backup : Sum String String
  parse : String → Except String (List Doc)

inductive LoadError where
  | parseFail (e : String)
  | ioFail (code : String)
deriving Repr, DecidableEq

/-- Embeds `FileAdapter.load`'s control flow: read the backing file (an ENOENT read
initializes an empty table); on JSON parse failure read and parse the sibling
backup, recovering with its records; if the backup read or parse fails, the
original parse error is rethrown (and the outer ENOENT handler does not
swallow it). The by-id index and sequence counter derived from the loaded
records are omitted: the claims concern which record list (or error) loading
produces. -/
def load (env : LoadEnv) : Except LoadError (List Doc) :=
  match env.primary with
  | .inl code => if code = "ENOENT" then .ok [] else .error (.ioFail code)
  | .inr txt =>
    match env.parse txt with
    | .ok arr => .ok arr
    | .error parseErr =>
      match env.backup with
      | .inl _ => .error (.parseFail parseErr)
      | .inr btxt =>
        match env.parse btxt with
        | .ok arr => .ok arr
        | .error _ => .error (.parseFail parseErr)

end FileAdapter

/-- The four adapter classes `createAdapter` can instantiate. -/
inductive AdapterKind where
  | file
  | sqlite
  | mongodb
  | postgres
deriving Repr, DecidableEq

/-- Embeds `createAdapter` from `index.ts`: pure dispatch on `database.type`.  It
never sees the schema catalog, so no primary-key configuration can make it
fail. -/
def createAdapter (dbType : String) : Except String AdapterKind :=
  if dbType = "file" then .ok .file
  else if dbType = "sqlite" then .ok .sqlite
  else if dbType = "mongodb" then .ok .mongodb
  else if dbType = "postgres" then .ok .postgres
  else .error "DB_ERROR: unknown database type"

namespace Rest

open Cache

/-- The cache instances alive in one server: `getCRUD` (the functional layer),
`generateRestRouter` and `generateJoinRestRouter` each construct their own
`CacheManager`. -/
structure RestCaches (A : Type) where
  funcCache : CacheManager A
  restCache : CacheManager A
  joinCache : CacheManager A

/-- The cache effect of a schema REST mutation handler (POST/PATCH/DELETE in
`generateRestRouter`): it delegates to the functional layer (which runs its
full invalidation sequence on its own cache), then invalidates the schema and
id on the REST router's own cache.  The join REST router's cache is not
reachable from this code. -/
def restMutation {A : Type} (sys : RestCaches A) (joins : List Join.JoinSpec)
    (s id : String) : RestCaches A :=
  ⟨CRUD.mutationInvalidate sys.funcCache (CRUD.buildJoinDeps joins) s id,
   invalidateById (invalidateSchema sys.restCache s) s id,
   sys.joinCache⟩

/-- The cached read the join REST route performs on its own cache. -/
def joinRestRead {A : Type} (sys : RestCaches A) (now : Nat) (name key : String)
    (computed : A) : A × Bool × CacheManager A :=
  CRUD.joinRead sys.joinCache now name key computed

end Rest


namespace Cache

variable {A : Type}

theorem storeMem_del_self (s : List (String × Entry A)) (k : String) :
    storeMem (storeDel s k) k = false := by
  simp only [storeMem, storeDel, List.any_eq_true, not_exists]
  rw [Bool.eq_false_iff]
  intro h
  obtain ⟨p, hp, hk⟩ := List.any_eq_true.mp h
  rw [List.mem_filter] at hp
  simp [hk] at hp

theorem storeMem_del_of_false (s : List (String × Entry A)) (k k' : String)
    (h : storeMem s k = false) : storeMem (storeDel s k') k = false := by
  rw [Bool.eq_false_iff]
  intro hmem
  obtain ⟨p, hp, hk⟩ := List.any_eq_true.mp hmem
  unfold storeDel at hp
  rw [List.mem_filter] at hp
  rw [Bool.eq_false_iff] at h
  exact h (List.any_eq_true.mpr ⟨p, hp.1, hk⟩)

theorem storeMem_foldDel_of_false (keys : List String)
    (s : List (String × Entry A)) (k : String) (h : storeMem s k = false) :
    storeMem (keys.foldl storeDel s) k = false := by
  induction keys generalizing s with
  | nil => exact h
  | cons d rest ih => exact ih _ (storeMem_del_of_false s k d h)

theorem storeMem_foldDel_of_mem (keys : List String)
    (s : List (String × Entry A)) (k : String) (h : k ∈ keys) :
    storeMem (keys.foldl storeDel s) k = false := by
  induction keys generalizing s with
  | nil => cases h
  | cons d rest ih =>
    rcases List.mem_cons.mp h with h1 | h2
    · subst h1
      exact storeMem_foldDel_of_false rest _ k (storeMem_del_self s k)
    · exact ih _ h2

theorem invalidateSchema_store_of_reg (cm : CacheManager A) (t k : String)
    (h : k ∈ lookupSet cm.schemaKeys t) :
    storeMem (invalidateSchema cm t).store k = false :=
  storeMem_foldDel_of_mem _ _ _ h

theorem invalidateSchema_store_of_false (cm : CacheManager A) (t k : String)
    (h : storeMem cm.store k = false) :
    storeMem (invalidateSchema cm t).store k = false :=
  storeMem_foldDel_of_false _ _ _ h

theorem lookupSet_mapClear_ne (t k : String) (h : k ≠ t) :
    ∀ l : List (String × List String),
      lookupSet (l.map (fun p => if p.1 == t then (p.1, ([] : List String)) else p)) k
        = lookupSet l k
  | [] => rfl
  | p :: rest => by
    have ih := lookupSet_mapClear_ne t k h rest
    cases hbt : (p.1 == t) with
    | false =>
      cases hbk : (p.1 == k) with
      | false =>
        simp only [List.map_cons, hbt, Bool.false_eq_true, if_false, lookupSet,
          List.find?_cons, hbk] at ih ⊢
        exact ih
      | true =>
        simp only [List.map_cons, hbt, Bool.false_eq_true, if_false, lookupSet,
          List.find?_cons, hbk]
    | true =>
      have hpt : p.1 = t := by simpa using hbt
      have hbk : (p.1 == k) = false := by
        rw [beq_eq_false_iff_ne]
        intro hc
        exact h (hc ▸ hpt)
      simp only [List.map_cons, hbt, if_true, lookupSet, List.find?_cons, hbk] at ih ⊢
      exact ih

theorem lookupSet_clearSet_ne (l : List (String × List String)) (t k : String)
    (h : k ≠ t) : lookupSet (clearSet l t) k = lookupSet l k := by
  unfold clearSet
  by_cases hany : l.any (fun p => p.1 == t) = true
  · simp only [hany, if_true]
    exact lookupSet_mapClear_ne t k h l
  · simp [hany]

theorem invalidateSchema_schemaKeys_ne (cm : CacheManager A) (t k : String)
    (h : k ≠ t) :
    lookupSet (invalidateSchema cm t).schemaKeys k = lookupSet cm.schemaKeys k :=
  lookupSet_clearSet_ne _ _ _ h

theorem invalidateById_schemaKeys (cm : CacheManager A) (s id : String) :
    (invalidateById cm s id).schemaKeys = cm.schemaKeys := by
  unfold invalidateById
  cases hm : (cm.itemKeys.find? (fun p => p.1 == s)).map (·.2) with
  | none => rfl
  | some m =>
    cases hs : (m.find? (fun q => q.1 == id)).map (·.2) with
    | none => simp [hs]
    | some set => simp [hs]

theorem invalidateById_store_of_false (cm : CacheManager A) (s id k : String)
    (h : storeMem cm.store k = false) :
    storeMem (invalidateById cm s id).store k = false := by
  unfold invalidateById
  cases hm : (cm.itemKeys.find? (fun p => p.1 == s)).map (·.2) with
  | none => exact h
  | some m =>
    cases hs : (m.find? (fun q => q.1 == id)).map (·.2) with
    | none => simpa [hs] using h
    | some set =>
      simp only [hs]
      exact storeMem_foldDel_of_false _ _ _ h

/-- The entry under `k` is either still registered under `tag` or already
evicted: the inductive invariant threaded through the mutation's
invalidation chain. -/
def regOrGone (cm : CacheManager A) (tag k : String) : Prop :=
  k ∈ lookupSet cm.schemaKeys tag ∨ storeMem cm.store k = false

theorem regOrGone_invalidateSchema (cm : CacheManager A) (t tag k : String)
    (h : regOrGone cm tag k) : regOrGone (invalidateSchema cm t) tag k := by
  rcases h with hreg | hgone
  · by_cases ht : tag = t
    · exact Or.inr (invalidateSchema_store_of_reg cm t k (ht ▸ hreg))
    · exact Or.inl ((invalidateSchema_schemaKeys_ne cm t tag ht) ▸ hreg)
  · exact Or.inr (invalidateSchema_store_of_false cm t k hgone)

theorem regOrGone_invalidateById (cm : CacheManager A) (s id tag k : String)
    (h : regOrGone cm tag k) : regOrGone (invalidateById cm s id) tag k := by
  rcases h with hreg | hgone
  · exact Or.inl ((invalidateById_schemaKeys cm s id) ▸ hreg)
  · exact Or.inr (invalidateById_store_of_false cm s id k hgone)

theorem storeMem_foldInvalidate_of_false (deps : List String)
    (cm : CacheManager A) (k : String) (h : storeMem cm.store k = false) :
    storeMem ((deps.foldl invalidateSchema cm).store) k = false := by
  induction deps generalizing cm with
  | nil => exact h
  | cons d rest ih => exact ih _ (invalidateSchema_store_of_false cm d k h)

theorem storeMem_foldInvalidate_of_reg (tag k : String) :
    ∀ (deps : List String) (cm : CacheManager A), tag ∈ deps →
      regOrGone cm tag k →
      storeMem ((deps.foldl invalidateSchema cm).store) k = false
  | [], _, hdep, _ => absurd hdep (List.not_mem_nil tag)
  | d :: rest, cm, hdep, h => by
    by_cases hd : tag = d
    · subst hd
      rcases h with hreg | hgone
      · exact storeMem_foldInvalidate_of_false rest _ k
          (invalidateSchema_store_of_reg cm tag k hreg)
      · exact storeMem_foldInvalidate_of_false rest _ k
          (invalidateSchema_store_of_false cm tag k hgone)
    · have hrest : tag ∈ rest := by
        rcases List.mem_cons.mp hdep with h1 | h2
        · exact absurd h1 hd
        · exact h2
      exact storeMem_foldInvalidate_of_reg tag k rest _ hrest
        (regOrGone_invalidateSchema cm d tag k h)

theorem storeGet_of_mem_false (s : List (String × Entry A)) (now : Nat)
    (k : String) (h : storeMem s k = false) : storeGet s now k = (none, s) := by
  unfold storeGet
  have : s.find? (fun p => p.1 == k) = none := by
    rw [List.find?_eq_none]
    intro p hp
    rw [Bool.eq_false_iff] at h
    intro hk
    exact h (List.any_eq_true.mpr ⟨p, hp, hk⟩)
  rw [this]

/-- After eviction of `k`, `getOrSet` at `k` invokes `compute`, whether or not
caching is enabled. -/
theorem getOrSet_computes_of_mem_false (cm : CacheManager A) (now : Nat)
    (k : String) (computed : A) (meta : Option (String × Option String))
    (h : storeMem cm.store k = false) :
    (getOrSet cm now k computed meta).2.1 = true := by
  unfold getOrSet
  by_cases he : cm.enabled = false
  · simp [he]
  · rw [if_neg he, storeGet_of_mem_false cm.store now k h]

end Cache


namespace Cache

theorem bool_eq_false_of_not {b : Bool} (h : ¬ b = true) : b = false := by
  cases b
  · rfl
  · exact absurd rfl h

theorem find?_append_of_none {α : Type} (p : α → Bool) (l1 l2 : List α)
    (h : l1.find? p = none) : (l1 ++ l2).find? p = l2.find? p := by
  simp [List.find?_append, h]

theorem find?_append_of_some {α : Type} (p : α → Bool) (l1 l2 : List α) (q : α)
    (h : l1.find? p = some q) : (l1 ++ l2).find? p = some q := by
  simp [List.find?_append, h]

theorem lookupSet_cons_pos {p : String × List String}
    {rest : List (String × List String)} {k : String} (h : (p.1 == k) = true) :
    lookupSet (p :: rest) k = p.2 := by
  simp [lookupSet, List.find?_cons, h]

theorem lookupSet_cons_neg {p : String × List String}
    {rest : List (String × List String)} {k : String} (h : (p.1 == k) = false) :
    lookupSet (p :: rest) k = lookupSet rest k := by
  simp [lookupSet, List.find?_cons, h]

theorem lookupSet_pair_cons_pos {k1 : String} {v1 : List String}
    {rest : List (String × List String)} {k : String} (h : (k1 == k) = true) :
    lookupSet ((k1, v1) :: rest) k = v1 := by
  simp [lookupSet, List.find?_cons, h]

theorem lookupSet_pair_cons_neg {k1 : String} {v1 : List String}
    {rest : List (String × List String)} {k : String} (h : (k1 == k) = false) :
    lookupSet ((k1, v1) :: rest) k = lookupSet rest k := by
  simp [lookupSet, List.find?_cons, h]

theorem mem_lookupSet_mapAdd (k v : String) :
    ∀ l : List (String × List String), l.any (fun p => p.1 == k) = true →
      v ∈ lookupSet
        (l.map (fun p =>
          if p.1 == k then (p.1, if p.2.contains v then p.2 else p.2 ++ [v]) else p)) k
  | [], h => by simp at h
  | p :: rest, h => by
    rw [List.map_cons]
    by_cases hbk : (p.1 == k) = true
    · rw [if_pos hbk, lookupSet_pair_cons_pos hbk]
      by_cases hc : p.2.contains v = true
      · rw [if_pos hc]
        exact List.mem_of_elem_eq_true hc
      · rw [if_neg hc]
        exact List.mem_append_right _ (List.mem_singleton.mpr rfl)
    · have hbkf := bool_eq_false_of_not hbk
      have hrest : rest.any (fun p => p.1 == k) = true := by
        rcases List.any_eq_true.mp h with ⟨q, hq, hqk⟩
        rcases List.mem_cons.mp hq with h1 | h2
        · subst h1; rw [hbkf] at hqk; cases hqk
        · exact List.any_eq_true.mpr ⟨q, h2, hqk⟩
      rw [if_neg hbk, lookupSet_cons_neg hbkf]
      exact mem_lookupSet_mapAdd k v rest hrest

theorem mem_lookupSet_addToSet_self (l : List (String × List String)) (k v : String) :
    v ∈ lookupSet (addToSet l k v) k := by
  unfold addToSet
  by_cases hany : l.any (fun p => p.1 == k) = true
  · rw [if_pos hany]
    exact mem_lookupSet_mapAdd k v l hany
  · rw [if_neg hany]
    have hnone : l.find? (fun p => p.1 == k) = none := by
      rw [List.find?_eq_none]
      intro p hp hk
      exact hany (List.any_eq_true.mpr ⟨p, hp, hk⟩)
    unfold lookupSet
    rw [find?_append_of_none _ _ _ hnone, List.find?_cons_of_pos _ (by simp)]
    simp

theorem mem_lookupSet_addToSet_mono (l : List (String × List String))
    (k k' v v' : String) (h : v ∈ lookupSet l k) :
    v ∈ lookupSet (addToSet l k' v') k := by
  unfold addToSet
  by_cases hany : l.any (fun p => p.1 == k') = true
  · rw [if_pos hany]
    clear hany
    induction l with
    | nil => simp [lookupSet] at h
    | cons p rest ih =>
      rw [List.map_cons]
      by_cases hbk : (p.1 == k) = true
      · rw [lookupSet_cons_pos hbk] at h
        by_cases hbk' : (p.1 == k') = true
        · rw [if_pos hbk', lookupSet_pair_cons_pos hbk]
          by_cases hc : p.2.contains v' = true
          · rwa [if_pos hc]
          · rw [if_neg hc]
            exact List.mem_append_left _ h
        · rw [if_neg hbk', lookupSet_cons_pos hbk]
          exact h
      · have hbkf := bool_eq_false_of_not hbk
        rw [lookupSet_cons_neg hbkf] at h
        by_cases hbk' : (p.1 == k') = true
        · rw [if_pos hbk', lookupSet_pair_cons_neg hbkf]
          exact ih h
        · rw [if_neg hbk', lookupSet_cons_neg hbkf]
          exact ih h
  · rw [if_neg hany]
    have hsome : ∃ q, l.find? (fun p => p.1 == k) = some q := by
      cases hf : l.find? (fun p => p.1 == k) with
      | none => simp [lookupSet, hf] at h
      | some q => exact ⟨q, rfl⟩
    obtain ⟨q, hq⟩ := hsome
    unfold lookupSet at h ⊢
    rw [find?_append_of_some _ _ _ _ hq]
    rwa [hq] at h

end Cache

namespace CRUD

open Cache Join

theorem lookupSet_innerFold_mono (tag : String) :
    ∀ (parts : List String) (d : List (String × List String)) (s v : String),
      v ∈ lookupSet d s →
      v ∈ lookupSet (parts.foldl (fun d r => addToSet d r tag) d) s
  | [], _, _, _, h => h
  | r :: rest, d, s, v, h =>
    lookupSet_innerFold_mono tag rest _ s v (mem_lookupSet_addToSet_mono d s r v tag h)

theorem mem_lookupSet_innerFold (tag : String) :
    ∀ (parts : List String) (d : List (String × List String)) (s : String),
      s ∈ parts →
      tag ∈ lookupSet (parts.foldl (fun d r => addToSet d r tag) d) s
  | [], _, _, h => absurd h (List.not_mem_nil _)
  | r :: rest, d, s, h => by
    by_cases hs : s = r
    · subst hs
      exact lookupSet_innerFold_mono tag rest _ s tag
        (mem_lookupSet_addToSet_self d s tag)
    · have hrest : s ∈ rest := by
        rcases List.mem_cons.mp h with h1 | h2
        · exact absurd h1 hs
        · exact h2
      exact mem_lookupSet_innerFold tag rest _ s hrest

/-- The participant list of a join: its base schema and every relation
schema. -/
def participants (j : JoinSpec) : List String :=
  j.base :: j.relations.map (fun r => r.schema)

theorem lookupSet_outerFold_mono (s v : String) :
    ∀ (joins : List JoinSpec) (init : List (String × List String)),
      v ∈ lookupSet init s →
      v ∈ lookupSet
        (joins.foldl
          (fun deps j =>
            (j.base :: j.relations.map (fun r => r.schema)).foldl
              (fun d rel => addToSet d rel ("join:" ++ j.name)) deps)
          init) s
  | [], _, h => h
  | jj :: rest, init, h =>
    lookupSet_outerFold_mono s v rest _
      (lookupSet_innerFold_mono ("join:" ++ jj.name) _ init s v h)

theorem mem_lookupSet_buildJoinDeps_aux (j : JoinSpec) (s : String)
    (hs : s ∈ participants j) :
    ∀ (joins : List JoinSpec) (init : List (String × List String)), j ∈ joins →
      ("join:" ++ j.name) ∈ lookupSet
        (joins.foldl
          (fun deps j =>
            (j.base :: j.relations.map (fun r => r.schema)).foldl
              (fun d rel => addToSet d rel ("join:" ++ j.name)) deps)
          init) s
  | [], _, hj => absurd hj (List.not_mem_nil _)
  | jj :: rest, init, hj => by
    by_cases hjj : j = jj
    · subst hjj
      exact lookupSet_outerFold_mono s _ rest _
        (mem_lookupSet_innerFold ("join:" ++ j.name) (participants j) init s hs)
    · have hrest : j ∈ rest := by
        rcases List.mem_cons.mp hj with h1 | h2
        · exact absurd h1 hjj
        · exact h2
      exact mem_lookupSet_buildJoinDeps_aux j s hs rest _ hrest

/-- Any participant schema of a join has the join's tag in the dependency
table `getCRUD` builds. -/
theorem mem_lookupSet_buildJoinDeps (joins : List JoinSpec) (j : JoinSpec)
    (s : String) (hj : j ∈ joins) (hs : s ∈ participants j) :
    ("join:" ++ j.name) ∈ lookupSet (buildJoinDeps joins) s :=
  mem_lookupSet_buildJoinDeps_aux j s hs joins [] hj

end CRUD


section DocLemmas

theorem find?_cons_posP {α : Type} (p : α → Bool) (a : α) (l : List α)
    (h : p a = true) : (a :: l).find? p = some a :=
  List.find?_cons_of_pos l h

theorem find?_cons_negP {α : Type} (p : α → Bool) (a : α) (l : List α)
    (h : p a = false) : (a :: l).find? p = l.find? p :=
  List.find?_cons_of_neg l (by simp [h])

theorem getField_cons_pos {p : String × Value} {rest : Doc} {k : String}
    (h : (p.1 == k) = true) : getField (p :: rest) k = some p.2 := by
  unfold getField
  rw [find?_cons_posP (fun q : String × Value => q.1 == k) _ _ h]
  rfl

theorem getField_cons_neg {p : String × Value} {rest : Doc} {k : String}
    (h : (p.1 == k) = false) : getField (p :: rest) k = getField rest k := by
  unfold getField
  rw [find?_cons_negP (fun q : String × Value => q.1 == k) _ _ h]

theorem getField_pair_cons_pos {k1 : String} {v1 : Value} {rest : Doc} {k : String}
    (h : (k1 == k) = true) : getField ((k1, v1) :: rest) k = some v1 := by
  unfold getField
  rw [find?_cons_posP (fun q : String × Value => q.1 == k) _ _ h]
  rfl

theorem getField_pair_cons_neg {k1 : String} {v1 : Value} {rest : Doc} {k : String}
    (h : (k1 == k) = false) : getField ((k1, v1) :: rest) k = getField rest k := by
  unfold getField
  rw [find?_cons_negP (fun q : String × Value => q.1 == k) _ _ h]

theorem getField_setField_self (doc : Doc) (k : String) (v : Value) :
    getField (setField doc k v) k = some v := by
  unfold setField
  by_cases hany : doc.any (fun p => p.1 == k) = true
  · rw [if_pos hany]
    induction doc with
    | nil => simp at hany
    | cons p rest ih =>
      rw [List.map_cons]
      by_cases hb : (p.1 == k) = true
      · rw [if_pos hb, getField_pair_cons_pos (by simp)]
      · have hbf := Cache.bool_eq_false_of_not hb
        have hrest : rest.any (fun p => p.1 == k) = true := by
          rcases List.any_eq_true.mp hany with ⟨q, hq, hqk⟩
          rcases List.mem_cons.mp hq with h1 | h2
          · subst h1; rw [hbf] at hqk; cases hqk
          · exact List.any_eq_true.mpr ⟨q, h2, hqk⟩
        rw [if_neg hb, getField_cons_neg hbf]
        exact ih hrest
  · rw [if_neg hany]
    have hnone : doc.find? (fun p => p.1 == k) = none := by
      rw [List.find?_eq_none]
      intro p hp hk
      exact hany (List.any_eq_true.mpr ⟨p, hp, hk⟩)
    unfold getField
    rw [Cache.find?_append_of_none _ _ _ hnone,
      find?_cons_posP (fun q : String × Value => q.1 == k) _ _ (by simp)]
    rfl

theorem getField_setField_ne (doc : Doc) (k k' : String) (v : Value)
    (h : k' ≠ k) : getField (setField doc k' v) k = getField doc k := by
  have hkk : (k' == k) = false := by
    rw [beq_eq_false_iff_ne]
    exact h
  unfold setField
  by_cases hany : doc.any (fun p => p.1 == k') = true
  · rw [if_pos hany]
    clear hany
    induction doc with
    | nil => rfl
    | cons p rest ih =>
      rw [List.map_cons]
      by_cases hb : (p.1 == k') = true
      · have hpk : (p.1 == k) = false := by
          rw [beq_eq_false_iff_ne]
          intro hc
          exact h ((by simpa using hb : p.1 = k') ▸ hc)
        rw [if_pos hb, getField_pair_cons_neg hkk, getField_cons_neg hpk]
        exact ih
      · by_cases hpk : (p.1 == k) = true
        · rw [if_neg hb, getField_cons_pos hpk, getField_cons_pos hpk]
        · have hpkf := Cache.bool_eq_false_of_not hpk
          rw [if_neg hb, getField_cons_neg hpkf, getField_cons_neg hpkf]
          exact ih
  · rw [if_neg hany]
    unfold getField
    cases hf : doc.find? (fun p => p.1 == k) with
    | none =>
      simp [Cache.find?_append_of_none _ _ _ hf, hf, List.find?_cons, hkk]
    | some q =>
      simp only [Cache.find?_append_of_some _ _ _ _ hf, hf]

theorem getField_removeField_ne (doc : Doc) (k k' : String) (h : k' ≠ k) :
    getField (removeField doc k') k = getField doc k := by
  unfold removeField
  induction doc with
  | nil => rfl
  | cons p rest ih =>
    by_cases hb : (p.1 == k') = true
    · have hpk : (p.1 == k) = false := by
        rw [beq_eq_false_iff_ne]
        intro hc
        exact h ((by simpa using hb : p.1 = k') ▸ hc)
      rw [List.filter_cons_of_neg (by simp [hb]), getField_cons_neg hpk]
      exact ih
    · rw [List.filter_cons_of_pos (by simpa using Cache.bool_eq_false_of_not hb)]
      by_cases hpk : (p.1 == k) = true
      · rw [getField_cons_pos hpk, getField_cons_pos hpk]
      · have hpkf := Cache.bool_eq_false_of_not hpk
        rw [getField_cons_neg hpkf, getField_cons_neg hpkf]
        exact ih

end DocLemmas

namespace FileAdapter

theorem mapGet_pair_cons_pos {k1 : Value} {v1 : Doc} {rest : IdMap} {k : Value}
    (h : (k1 == k) = true) : mapGet ((k1, v1) :: rest) k = some v1 := by
  unfold mapGet
  rw [find?_cons_posP (fun q : Value × Doc => q.1 == k) _ _ h]
  rfl

theorem mapGet_cons_neg {p : Value × Doc} {rest : IdMap} {k : Value}
    (h : (p.1 == k) = false) : mapGet (p :: rest) k = mapGet rest k := by
  unfold mapGet
  rw [find?_cons_negP (fun q : Value × Doc => q.1 == k) _ _ h]

theorem mapGet_mapSet_self (m : IdMap) (k : Value) (v : Doc) :
    mapGet (mapSet m k v) k = some v := by
  unfold mapSet
  by_cases hany : m.any (fun p => p.1 == k) = true
  · rw [if_pos hany]
    induction m with
    | nil => simp at hany
    | cons p rest ih =>
      rw [List.map_cons]
      by_cases hb : (p.1 == k) = true
      · rw [if_pos hb, mapGet_pair_cons_pos (Value.beq_refl k)]
      · have hbf := Cache.bool_eq_false_of_not hb
        have hrest : rest.any (fun p => p.1 == k) = true := by
          rcases List.any_eq_true.mp hany with ⟨q, hq, hqk⟩
          rcases List.mem_cons.mp hq with h1 | h2
          · subst h1; rw [hbf] at hqk; cases hqk
          · exact List.any_eq_true.mpr ⟨q, h2, hqk⟩
        rw [if_neg hb, mapGet_cons_neg hbf]
        exact ih hrest
  · rw [if_neg hany]
    have hnone : m.find? (fun p => p.1 == k) = none := by
      rw [List.find?_eq_none]
      intro p hp hk
      exact hany (List.any_eq_true.mpr ⟨p, hp, hk⟩)
    unfold mapGet
    rw [Cache.find?_append_of_none _ _ _ hnone,
      find?_cons_posP (fun q : Value × Doc => q.1 == k) _ _ (Value.beq_refl k)]
    rfl

end FileAdapter


namespace Cache

theorem getOrSet_hit {A : Type} (cm : CacheManager A) (now : Nat) (k : String)
    (computed : A) (meta : Option (String × Option String)) (pe : String × Entry A)
    (hen : cm.enabled = true)
    (hfind : cm.store.find? (fun p => p.1 == k) = some pe)
    (hfresh : ¬ now > pe.2.expiresAt) :
    (getOrSet cm now k computed meta).1 = pe.2.value ∧
    (getOrSet cm now k computed meta).2.1 = false := by
  have hget : storeGet cm.store now k = (some pe.2, cm.store) := by
    unfold storeGet
    rw [hfind]
    simp [hfresh]
  unfold getOrSet
  rw [if_neg (by simp [hen]), hget]
  exact ⟨rfl, rfl⟩

theorem getOrSet_expired_computes {A : Type} (cm : CacheManager A) (now : Nat)
    (k : String) (computed : A) (meta : Option (String × Option String))
    (pe : String × Entry A)
    (hfind : cm.store.find? (fun p => p.1 == k) = some pe)
    (hexp : now > pe.2.expiresAt) :
    (getOrSet cm now k computed meta).2.1 = true := by
  unfold getOrSet
  by_cases hen : cm.enabled = false
  · rw [if_pos hen]
  · rw [if_neg hen]
    have hget : storeGet cm.store now k =
        (none, cm.store.filter (fun p => ¬ (p.1 == k))) := by
      unfold storeGet
      rw [hfind]
      simp [hexp]
    rw [hget]

/-- The set of keys registered under a specific `(schema, id)` pair. -/
def itemLookup (itemKeys : List (String × List (String × List String)))
    (s id : String) : List String :=
  lookupSet (((itemKeys.find? (fun p => p.1 == s)).map (·.2)).getD []) id

end Cache

/-- C1: every mutation (insert, update, delete) bound by `getCRUD` for a
schema runs, on the single CacheManager that also serves
`functions.join.<name>`, the sequence `invalidateSchema(schema)`,
`invalidateById(schema, id)`, and `invalidateSchema("join:<name>")` for every
join in whose participant set (base or any relation) the schema occurs.
Consequently: every cache entry registered under the schema, every entry
registered under the mutated record's id that is also schema-registered (as
`registerKey` always does), and every entry registered under the join's
synthetic tag is evicted, and the next `functions.join.<name>` read for such
a key invokes the underlying fetch (`compute`) again instead of returning a
cached value. -/
theorem claim_C1 {A : Type} (cm : Cache.CacheManager A) (joins : List Join.JoinSpec)
    (j : Join.JoinSpec) (s id k : String) (now : Nat) (computed : A)
    (hj : j ∈ joins) (hs : s ∈ CRUD.participants j)
    (hreg : k ∈ Cache.lookupSet cm.schemaKeys ("join:" ++ j.name)) :
    Cache.storeMem (CRUD.mutationInvalidate cm (CRUD.buildJoinDeps joins) s id).store k = false ∧
    (CRUD.joinRead (CRUD.mutationInvalidate cm (CRUD.buildJoinDeps joins) s id)
      now j.name k computed).2.1 = true ∧
    (∀ k', k' ∈ Cache.lookupSet cm.schemaKeys s →
      Cache.storeMem (CRUD.mutationInvalidate cm (CRUD.buildJoinDeps joins) s id).store k' = false) ∧
    (∀ k', k' ∈ Cache.itemLookup cm.itemKeys s id →
      k' ∈ Cache.lookupSet cm.schemaKeys s →
      Cache.storeMem (CRUD.mutationInvalidate cm (CRUD.buildJoinDeps joins) s id).store k' = false) := by
  have htag : ("join:" ++ j.name) ∈ Cache.lookupSet (CRUD.buildJoinDeps joins) s :=
    CRUD.mem_lookupSet_buildJoinDeps joins j s hj hs
  have h1 : Cache.storeMem
      (CRUD.mutationInvalidate cm (CRUD.buildJoinDeps joins) s id).store k = false := by
    unfold CRUD.mutationInvalidate
    exact Cache.storeMem_foldInvalidate_of_reg ("join:" ++ j.name) k _ _ htag
      (Cache.regOrGone_invalidateById _ s id _ k
        (Cache.regOrGone_invalidateSchema cm s _ k (Or.inl hreg)))
  have hown : ∀ k', k' ∈ Cache.lookupSet cm.schemaKeys s →
      Cache.storeMem (CRUD.mutationInvalidate cm (CRUD.buildJoinDeps joins) s id).store k' = false := by
    intro k' hk'
    unfold CRUD.mutationInvalidate
    exact Cache.storeMem_foldInvalidate_of_false _ _ k'
      (Cache.invalidateById_store_of_false _ s id k'
        (Cache.invalidateSchema_store_of_reg cm s k' hk'))
  refine ⟨h1, ?_, hown, fun k' _ hk2 => hown k' hk2⟩
  unfold CRUD.joinRead
  exact Cache.getOrSet_computes_of_mem_false _ now k computed _ h1

/-- Concrete instantiation of C1: a cached join read under tag `join:j1` is
evicted by a mutation on the join's base schema, and the next join read
computes again. -/
def c1cm : Cache.CacheManager Nat :=
  ⟨true, 1000, [("K", ⟨7, 50⟩)], [("join:j1", ["K"])], []⟩

def c1join : Join.JoinSpec :=
  ⟨"j1", "user", [⟨"order", "id", "userId", "orders", "left"⟩]⟩

theorem claim_C1_witness :
    Cache.storeMem
      (CRUD.mutationInvalidate c1cm (CRUD.buildJoinDeps [c1join]) "user" "5").store "K" = false ∧
    (CRUD.joinRead (CRUD.mutationInvalidate c1cm (CRUD.buildJoinDeps [c1join]) "user" "5")
      60 "j1" "K" 9).2.1 = true :=
  ⟨(claim_C1 c1cm [c1join] c1join "user" "5" "K" 60 9 (List.mem_singleton.mpr rfl)
      (by decide) (by decide)).1,
   (claim_C1 c1cm [c1join] c1join "user" "5" "K" 60 9 (List.mem_singleton.mpr rfl)
      (by decide) (by decide)).2.1⟩

/-- C9: the schema REST router, the join REST router and the functional layer
each own a separate CacheManager; a schema REST mutation (POST/PATCH/DELETE)
invalidates only the functional layer's cache and the schema router's own
cache.  The join router's cache component is untouched, so a cached join REST
response keeps being served (without recomputation) while its TTL lasts, and
only recomputes once the entry has expired. -/
theorem claim_C9 {A : Type} (sys : Rest.RestCaches A) (joins : List Join.JoinSpec)
    (s id name k : String) (now now' : Nat) (computed computed' : A)
    (pe : String × Cache.Entry A)
    (hen : sys.joinCache.enabled = true)
    (hfind : sys.joinCache.store.find? (fun p => p.1 == k) = some pe)
    (hfresh : ¬ now > pe.2.expiresAt)
    (hexp : now' > pe.2.expiresAt) :
    (Rest.restMutation sys joins s id).joinCache = sys.joinCache ∧
    (Rest.joinRestRead (Rest.restMutation sys joins s id) now name k computed).1
      = pe.2.value ∧
    (Rest.joinRestRead (Rest.restMutation sys joins s id) now name k computed).2.1
      = false ∧
    (Rest.joinRestRead (Rest.restMutation sys joins s id) now' name k computed').2.1
      = true := by
  refine ⟨rfl, ?_, ?_, ?_⟩
  · exact (Cache.getOrSet_hit sys.joinCache now k computed _ pe hen hfind hfresh).1
  · exact (Cache.getOrSet_hit sys.joinCache now k computed _ pe hen hfind hfresh).2
  · exact Cache.getOrSet_expired_computes sys.joinCache now' k computed' _ pe hfind hexp

/-- Concrete three-cache server state for the C9 witness: the join router's
cache holds a response under key "JK". -/
def c9sys : Rest.RestCaches Nat :=
  ⟨⟨true, 1000, [], [], []⟩,
   ⟨true, 1000, [], [], []⟩,
   ⟨true, 1000, [("JK", ⟨42, 100⟩)], [("join:uo", ["JK"])], []⟩⟩

def c9join : Join.JoinSpec :=
  ⟨"uo", "user", [⟨"order", "id", "userId", "orders", "left"⟩]⟩

theorem claim_C9_witness :
    (Rest.restMutation c9sys [c9join] "user" "5").joinCache = c9sys.joinCache ∧
    (Rest.joinRestRead (Rest.restMutation c9sys [c9join] "user" "5") 90 "uo" "JK" 0).1 = 42 ∧
    (Rest.joinRestRead (Rest.restMutation c9sys [c9join] "user" "5") 90 "uo" "JK" 0).2.1 = false ∧
    (Rest.joinRestRead (Rest.restMutation c9sys [c9join] "user" "5") 101 "uo" "JK" 0).2.1 = true :=
  claim_C9 c9sys [c9join] "user" "5" "uo" "JK" 90 101 0 0 ("JK", ⟨42, 100⟩)
    rfl rfl (by decide) (by decide)


namespace Join

theorem isEmpty_eq_nil {α : Type} (l : List α) (h : l.isEmpty = true) : l = [] := by
  cases l with
  | nil => rfl
  | cons a rest => simp [List.isEmpty] at h

theorem relCallOf_of_isEmpty (opts : JoinOpts) (rel : Relation)
    (baseRows : List Doc) (h : baseRows.isEmpty = true) :
    relCallOf opts baseRows rel = none := by
  rw [isEmpty_eq_nil baseRows h]
  rfl

/-- Characterization of a successful `executeJoin` run: the issued call log is
the base call followed by, in relation order, the single batched call of every
relation whose distinct local values are non-empty; nothing is issued past the
base call when the base result set is empty. -/
theorem executeJoin_calls (join : JoinSpec) (opts : JoinOpts) (schemas : Schemas)
    (adapter : DBFind) (bs : Schema)
    (hbase : lookupSchema schemas join.base = some bs)
    (hrels : ∀ rel ∈ join.relations, (lookupSchema schemas rel.schema).isSome = true) :
    ∃ rows,
      executeJoin join opts schemas adapter = Except.ok
        ((if (adapter bs (baseFindOpts opts)).isEmpty then [] else rows),
         ⟨join.base, baseFindOpts opts⟩ ::
           (if (adapter bs (baseFindOpts opts)).isEmpty then []
            else join.relations.filterMap (relCallOf opts (adapter bs (baseFindOpts opts))))) := by
  obtain ⟨rows, hrows⟩ := processRelations_spec schemas adapter opts
    (adapter bs (baseFindOpts opts)) join.relations
    (adapter bs (baseFindOpts opts)) hrels
  refine ⟨rows, ?_⟩
  unfold executeJoin
  rw [hbase]
  by_cases hE : (adapter bs (baseFindOpts opts)).isEmpty = true
  · simp [hE]
  · simp [hE, hrows]

end Join

/-- C2: for every join specification and base query, `executeJoin` issues the
base `find` and then at most one batched `find` per relation — exactly one for
each relation with a non-empty set of distinct local-field values — so the
relation-call count never depends on the number of base rows; when the base
result set is empty it returns `[]` immediately and issues no relation query
at all. -/
theorem claim_C2 (join : Join.JoinSpec) (opts : Join.JoinOpts)
    (schemas : Join.Schemas) (adapter : Join.DBFind) (bs : Schema)
    (hbase : Join.lookupSchema schemas join.base = some bs)
    (hrels : ∀ rel ∈ join.relations, (Join.lookupSchema schemas rel.schema).isSome = true) :
    ∃ rows calls,
      Join.executeJoin join opts schemas adapter = Except.ok (rows, calls) ∧
      calls = ⟨join.base, Join.baseFindOpts opts⟩ ::
        (if (adapter bs (Join.baseFindOpts opts)).isEmpty then []
         else join.relations.filterMap
           (Join.relCallOf opts (adapter bs (Join.baseFindOpts opts)))) ∧
      ((adapter bs (Join.baseFindOpts opts)).isEmpty = true →
        rows = [] ∧ calls = [⟨join.base, Join.baseFindOpts opts⟩]) ∧
      calls.length ≤ 1 + join.relations.length ∧
      (∀ rel ∈ join.relations, ∀ c : Join.FindCall,
        Join.relCallOf opts (adapter bs (Join.baseFindOpts opts)) rel = some c →
        c ∈ calls ∧ c.schema = rel.schema) := by
  obtain ⟨rows, hrun⟩ := Join.executeJoin_calls join opts schemas adapter bs hbase hrels
  refine ⟨_, _, hrun, rfl, ?_, ?_, ?_⟩
  · intro hE
    simp [hE]
  · by_cases hE : (adapter bs (Join.baseFindOpts opts)).isEmpty = true
    · simp [hE]
    · simp only [hE, Bool.false_eq_true, if_false, List.length_cons]
      have := List.length_filterMap_le
        (Join.relCallOf opts (adapter bs (Join.baseFindOpts opts))) join.relations
      omega
  · intro rel hrel c hc
    constructor
    · by_cases hE : (adapter bs (Join.baseFindOpts opts)).isEmpty = true
      · rw [Join.relCallOf_of_isEmpty opts rel _ hE] at hc
        cases hc
      · simp only [hE, Bool.false_eq_true, if_false]
        exact List.mem_cons_of_mem _ (List.mem_filterMap.mpr ⟨rel, hrel, hc⟩)
    · unfold Join.relCallOf at hc
      by_cases hv : (Join.distinctLocalValues (adapter bs (Join.baseFindOpts opts))
          rel.localField).isEmpty = true
      · simp [hv] at hc
      · simp only [hv, Bool.false_eq_true, if_false, Option.some_inj] at hc
        rw [← hc]

/-- Concrete C2 instantiation: a two-row base with one relation issues exactly
two calls (base + one batched relation query); an empty base issues one. -/
def c2userData : List Doc := [[("id", Value.vNum 1)], [("id", Value.vNum 2)]]

def c2orderData : List Doc :=
  [[("oid", Value.vNum 10), ("userId", Value.vNum 1)],
   [("oid", Value.vNum 11), ("userId", Value.vNum 2)]]

def c2userSchema : Schema := ⟨"user", "id", false, ⟨true, PkStrategy.uuid, 1, 1⟩⟩

def c2orderSchema : Schema := ⟨"order", "oid", false, ⟨true, PkStrategy.uuid, 1, 1⟩⟩

def c2schemas : Join.Schemas := [("user", c2userSchema), ("order", c2orderSchema)]

def c2adapter : Join.DBFind := fun schema fopts =>
  if schema.name == "order" then FileAdapter.find c2orderData fopts
  else FileAdapter.find c2userData fopts

def c2join : Join.JoinSpec :=
  ⟨"userOrders", "user", [⟨"order", "id", "userId", "orders", "left"⟩]⟩

theorem claim_C2_witness :
    (∃ rows calls,
      Join.executeJoin c2join ⟨none, none, none, none⟩ c2schemas c2adapter =
        Except.ok (rows, calls) ∧ calls.length ≤ 1 + c2join.relations.length) := by
  obtain ⟨rows, calls, hrun, _, _, hlen, _⟩ :=
    claim_C2 c2join ⟨none, none, none, none⟩ c2schemas c2adapter c2userSchema
      rfl (by decide)
  exact ⟨rows, calls, hrun, hlen⟩


def c3userData : List Doc := [[("id", Value.vNum 1)]]

def c3orderData : List Doc :=
  [[("oid", Value.vNum 1), ("userId", Value.vNum 1)],
   [("oid", Value.vNum 2), ("userId", Value.vNum 99)]]

def c3userSchema : Schema := ⟨"user", "id", false, ⟨true, PkStrategy.uuid, 1, 1⟩⟩

def c3orderSchema : Schema := ⟨"order", "oid", false, ⟨true, PkStrategy.uuid, 1, 1⟩⟩

def c3schemas : Join.Schemas := [("user", c3userSchema), ("order", c3orderSchema)]

def c3adapter : Join.DBFind := fun schema fopts =>
  if schema.name == "order" then FileAdapter.find c3orderData fopts
  else FileAdapter.find c3userData fopts

def c3join : Join.JoinSpec :=
  ⟨"userOrders", "user", [⟨"order", "id", "userId", "orders", "left"⟩]⟩

/-- Relation options whose filter reuses the relation's own `foreignField`
(`userId`) as a key. -/
def c3opts : Join.JoinOpts :=
  ⟨none, none, none,
   some [("orders",
     ⟨some [("userId", FilterVal.ops [("in", Value.vArr [Value.vNum 99])])],
      none, none⟩)]⟩

/-- C3 fails on the code: the distinct local values of the single base row are
`[1]`, yet the one `find` issued against the relation schema carries the
caller's filter `userId in [99]` alone — the spread `{join-key, ...relFilter}`
let the caller's entry replace the base join-key constraint — and that query
returns a foreign row with `userId = 99`, outside the collected set. -/
theorem claim_C3_counterexample :
    Join.distinctLocalValues c3userData "id" = [Value.vNum 1] ∧
    Join.executeJoin c3join c3opts c3schemas c3adapter = Except.ok
      ([[("id", Value.vNum 1), ("orders", Value.vArr [])]],
       [⟨"user", ⟨none, none, none⟩⟩,
        ⟨"order",
         ⟨some [("userId", FilterVal.ops [("in", Value.vArr [Value.vNum 99])])],
          none, none⟩⟩]) ∧
    FileAdapter.find c3orderData
      ⟨some [("userId", FilterVal.ops [("in", Value.vArr [Value.vNum 99])])],
        none, none⟩
      = [[("oid", Value.vNum 2), ("userId", Value.vNum 99)]] :=
  ⟨rfl, rfl, rfl⟩

/-- C3 amended: the batched relation query's join-key constraint survives the
merge exactly when the caller-supplied relation filter does not itself use the
relation's `foreignField` as a key; in that case every row matching the
combined filter has its `foreignField` value among the distinct local values.
When the caller's filter does use that key, the spread order makes the
caller's entry replace the constraint (last closed conjunct). -/
theorem claim_C3_amended :
    (∀ (foreignField : String) (values : List Value) (relFilter : FindFilter),
      (∀ q ∈ relFilter, ¬ q.1 = foreignField) →
      Join.combinedFilter foreignField values (some relFilter) =
        (foreignField, FilterVal.ops [("in", Value.vArr values)]) :: relFilter) ∧
    (∀ (foreignField : String) (values : List Value) (relFilter : FindFilter)
       (doc : Doc),
      (∀ q ∈ relFilter, ¬ q.1 = foreignField) →
      FileAdapter.docMatches doc
        (some (Join.combinedFilter foreignField values (some relFilter))) = true →
      ∃ d, getField doc foreignField = some d ∧ values.contains d = true) ∧
    Join.combinedFilter "userId" [Value.vNum 1]
      (some [("userId", FilterVal.ops [("in", Value.vArr [Value.vNum 99])])]) =
      [("userId", FilterVal.ops [("in", Value.vArr [Value.vNum 99])])] := by
  have hkeep : ∀ (foreignField : String) (values : List Value)
      (relFilter : FindFilter), (∀ q ∈ relFilter, ¬ q.1 = foreignField) →
      Join.combinedFilter foreignField values (some relFilter) =
        (foreignField, FilterVal.ops [("in", Value.vArr values)]) :: relFilter := by
    intro ff values rf h
    have hany : rf.any (fun q => q.1 == ff) = false := by
      rw [Bool.eq_false_iff]
      intro hx
      obtain ⟨q, hq, hqf⟩ := List.any_eq_true.mp hx
      exact h q hq (by simpa using hqf)
    unfold Join.combinedFilter
    simp [List.filter, hany]
  refine ⟨hkeep, ?_, rfl⟩
  intro ff values rf doc h hmatch
  rw [hkeep ff values rf h] at hmatch
  simp only [FileAdapter.docMatches, List.all_cons, Bool.and_eq_true, List.all_nil,
    Bool.and_true] at hmatch
  have hhead := hmatch.1
  unfold FileAdapter.matchOp at hhead
  rw [if_neg (by decide), if_pos rfl] at hhead
  cases hdv : getField doc ff with
  | none => rw [hdv] at hhead; cases hhead
  | some d =>
    rw [hdv] at hhead
    exact ⟨d, rfl, hhead⟩

theorem claim_C3_amended_witness :
    ∃ d, getField [("userId", Value.vNum 1)] "userId" = some d ∧
      [Value.vNum 1].contains d = true :=
  claim_C3_amended.2.1 "userId" [Value.vNum 1] [] [("userId", Value.vNum 1)]
    (by simp) (by decide)

def c8orderData : List Doc :=
  (List.range 51).map (fun i => [("oid", Value.vNum i), ("userId", Value.vNum 1)])

def c8userData : List Doc := [[("id", Value.vNum 1)]]

def c8schemas : Join.Schemas := [("user", c3userSchema), ("order", c3orderSchema)]

def c8adapter : Join.DBFind := fun schema fopts =>
  if schema.name == "order" then FileAdapter.find c8orderData fopts
  else FileAdapter.find c8userData fopts

def c8join : Join.JoinSpec :=
  ⟨"userOrders", "user", [⟨"order", "id", "userId", "orders", "left"⟩]⟩

/-- Observation helper: the length of the relation array attached under the
given alias on the first output row of a join result. -/
def relArrLen (res : Except String (List Doc × List Join.FindCall)) (a : String) :
    Option Nat :=
  match res with
  | .ok (row :: _, _) =>
    match getField row a with
    | some (.vArr xs) => some xs.length
    | _ => none
  | _ => none

/-- C8: the batched relation query `executeJoin` builds carries a filter only —
no pagination and no sort — so the adapter's defaults apply to it; the file
adapter's `find` without pagination returns at most 50 rows (default
`limit = 50`, `offset = 0`); concretely, with one base row and 51 matching
foreign rows the single relation fetch is capped at 50 and the output row's
relation array holds 50 of the 51 matches, the rest silently absent. -/
theorem claim_C8 :
    (∀ (opts : Join.JoinOpts) (baseRows : List Doc) (rel : Join.Relation)
       (c : Join.FindCall), Join.relCallOf opts baseRows rel = some c →
       c.opts.pagination = none ∧ c.opts.sort = none) ∧
    (∀ (data : List Doc) (f : Option FindFilter) (st : Option SortSpec),
       (FileAdapter.find data ⟨f, none, st⟩).length ≤ 50) ∧
    relArrLen (Join.executeJoin c8join ⟨none, none, none, none⟩ c8schemas c8adapter)
      "orders" = some 50 ∧
    c8orderData.length = 51 ∧
    c8orderData.countP (fun d => FileAdapter.docMatches d
      (some (Join.combinedFilter "userId" [Value.vNum 1] none))) = 51 := by
  refine ⟨?_, ?_, rfl, rfl, rfl⟩
  · intro opts baseRows rel c hc
    unfold Join.relCallOf at hc
    by_cases hv : (Join.distinctLocalValues baseRows rel.localField).isEmpty = true
    · simp [hv] at hc
    · simp only [hv, Bool.false_eq_true, if_false, Option.some_inj] at hc
      rw [← hc]
      exact ⟨rfl, rfl⟩
  · intro data f st
    unfold FileAdapter.find
    simp only [Option.map_none, Option.getD_none, Option.getD_some, List.drop_zero]
    exact List.length_take_le _ _

theorem claim_C8_witness :
    ((FileAdapter.find c8orderData ⟨none, none, none⟩).length ≤ 50) ∧
    relArrLen (Join.executeJoin c8join ⟨none, none, none, none⟩ c8schemas c8adapter)
      "orders" = some 50 :=
  ⟨claim_C8.2.1 c8orderData none none, claim_C8.2.2.1⟩


namespace MongoAdapter

theorem getField_stampTimestamps (schema : Schema) (doc : Doc) (now : String)
    (k : String) (h1 : k ≠ "createdAt") (h2 : k ≠ "updatedAt") :
    getField (stampTimestamps schema doc now) k = getField doc k := by
  unfold stampTimestamps
  by_cases ht : schema.timestamps = true
  · rw [if_pos ht]
    by_cases hc : isNullish (getField doc "createdAt") = true
    · rw [if_pos hc]
      by_cases hu : isNullish (getField (setField doc "createdAt" (Value.vStr now)) "updatedAt") = true
      · rw [if_pos hu, getField_setField_ne _ _ _ _ (fun hc2 => h2 hc2.symm),
          getField_setField_ne _ _ _ _ (fun hc2 => h1 hc2.symm)]
      · rw [if_neg hu, getField_setField_ne _ _ _ _ (fun hc2 => h1 hc2.symm)]
    · rw [if_neg hc]
      by_cases hu : isNullish (getField doc "updatedAt") = true
      · rw [if_pos hu, getField_setField_ne _ _ _ _ (fun hc2 => h2 hc2.symm)]
      · rw [if_neg hu]
  · rw [if_neg ht]

theorem getField_assignPk_absent (schema : Schema) (doc : Doc) (uuid : String)
    (hauto : schema.pk.auto = true)
    (habs : getField doc schema.primaryKey = none) :
    getField (assignPk schema doc uuid) schema.primaryKey
      = some (Value.vStr uuid) := by
  unfold assignPk
  rw [habs, if_pos hauto, getField_setField_self]

theorem getField_setInternalId (schema : Schema) (doc : Doc)
    (h : schema.primaryKey ≠ "_id") :
    getField (setInternalId schema doc) schema.primaryKey
      = getField doc schema.primaryKey := by
  unfold setInternalId
  cases hf : getField doc schema.primaryKey with
  | none => simpa using hf
  | some v =>
    show getField (if v.truthy = true then setField doc "_id" v else doc)
      schema.primaryKey = some v
    by_cases htr : v.truthy = true
    · rw [if_pos htr, getField_setField_ne _ _ _ _ (fun hc => h hc.symm)]
      exact hf
    · rw [if_neg htr]
      exact hf

end MongoAdapter

def c5seqSchema : Schema := ⟨"product", "id", false, ⟨true, PkStrategy.sequence, 100, 1⟩⟩

/-- C5 fails on the code: `createAdapter` dispatches on the database type
alone — it never sees any schema's pk strategy, so pairing the MongoDB backend
with a `sequence` schema raises nothing at instantiation — and
`MongoAdapter.insert` then silently generates a uuid for the missing id of the
sequence-strategy schema `product`. -/
theorem claim_C5_counterexample :
    createAdapter "mongodb" = Except.ok AdapterKind.mongodb ∧
    c5seqSchema.pk.strategy = PkStrategy.sequence ∧
    getField (MongoAdapter.insertDoc c5seqSchema [("name", Value.vStr "A")] "u-1" "t0") "id"
      = some (Value.vStr "u-1") :=
  ⟨rfl, rfl, rfl⟩

/-- C5 amended: combining the MongoDB backend with a `sequence` pk strategy is
not rejected: `createAdapter "mongodb"` succeeds without consulting any
schema, and for every auto-pk schema — whatever its strategy — an insert whose
document lacks the primary key silently receives a generated uuid string. -/
theorem claim_C5 (schema : Schema) (doc : Doc) (uuid now : String)
    (hauto : schema.pk.auto = true)
    (habsent : getField doc schema.primaryKey = none)
    (h1 : schema.primaryKey ≠ "createdAt") (h2 : schema.primaryKey ≠ "updatedAt")
    (h3 : schema.primaryKey ≠ "_id") :
    createAdapter "mongodb" = Except.ok AdapterKind.mongodb ∧
    getField (MongoAdapter.insertDoc schema doc uuid now) schema.primaryKey
      = some (Value.vStr uuid) := by
  refine ⟨rfl, ?_⟩
  unfold MongoAdapter.insertDoc
  rw [getField_removeField_ne _ _ _ (fun hc => h3 hc.symm),
    MongoAdapter.getField_setInternalId _ _ h3,
    MongoAdapter.getField_assignPk_absent _ _ _ hauto]
  rw [MongoAdapter.getField_stampTimestamps _ _ _ _ h1 h2]
  exact habsent

theorem claim_C5_witness :
    createAdapter "mongodb" = Except.ok AdapterKind.mongodb ∧
    getField (MongoAdapter.insertDoc c5seqSchema [("name", Value.vStr "A")] "u-1" "t0") "id"
      = some (Value.vStr "u-1") :=
  claim_C5 c5seqSchema [("name", Value.vStr "A")] "u-1" "t0" rfl rfl
    (by decide) (by decide) (by decide)

/-- C7: when the primary backing file's content fails to parse, the file
adapter recovers from the sibling backup when that parses, loading the
backup's records; when the backup read or parse also fails, loading fails with
the primary's propagated parse error — no empty table is substituted (the
ENOENT empty-table path applies only to a missing primary file, not to a parse
error). -/
theorem claim_C7 (env : FileAdapter.LoadEnv) (txt pe : String)
    (hp : env.primary = Sum.inr txt) (hparse : env.parse txt = Except.error pe) :
    (∀ (btxt : String) (arr : List Doc), env.backup = Sum.inr btxt →
      env.parse btxt = Except.ok arr → FileAdapter.load env = Except.ok arr) ∧
    (∀ (btxt pe2 : String), env.backup = Sum.inr btxt →
      env.parse btxt = Except.error pe2 →
      FileAdapter.load env = Except.error (FileAdapter.LoadError.parseFail pe)) ∧
    (∀ code : String, env.backup = Sum.inl code →
      FileAdapter.load env = Except.error (FileAdapter.LoadError.parseFail pe)) := by
  refine ⟨?_, ?_, ?_⟩
  · intro btxt arr hb hbp
    unfold FileAdapter.load
    rw [hp]
    simp [hparse, hb, hbp]
  · intro btxt pe2 hb hbp
    unfold FileAdapter.load
    rw [hp]
    simp [hparse, hb, hbp]
  · intro code hb
    unfold FileAdapter.load
    rw [hp]
    simp [hparse, hb]

def c7goodDoc : Doc := [("id", Value.vNum 1)]

/-- A `JSON.parse` model for the witness: only the text "good" parses. -/
def c7parse : String → Except String (List Doc) := fun st =>
  if st = "good" then Except.ok [c7goodDoc] else Except.error "SyntaxError"

def c7envRecover : FileAdapter.LoadEnv := ⟨Sum.inr "corrupt", Sum.inr "good", c7parse⟩

def c7envFatal : FileAdapter.LoadEnv :=
  ⟨Sum.inr "corrupt", Sum.inr "also-corrupt", c7parse⟩

theorem claim_C7_witness :
    FileAdapter.load c7envRecover = Except.ok [c7goodDoc] ∧
    FileAdapter.load c7envFatal =
      Except.error (FileAdapter.LoadError.parseFail "SyntaxError") :=
  ⟨(claim_C7 c7envRecover "corrupt" "SyntaxError" rfl rfl).1 "good" [c7goodDoc] rfl rfl,
   (claim_C7 c7envFatal "corrupt" "SyntaxError" rfl rfl).2.1 "also-corrupt" "SyntaxError"
     rfl rfl⟩


/-- The recognized filter operators of the adapter contract. -/
def knownOps : List String := ["eq", "in", "gt", "gte", "lt", "lte", "contains"]

/-- Remove every unknown-operator entry from each operator object of a
filter: the reference point used to state that unknown operators behave as
if they were absent. -/
def dropUnknownOps (f : FindFilter) : FindFilter :=
  f.map (fun p =>
    match p.2 with
    | .lit v => (p.1, FilterVal.lit v)
    | .ops l => (p.1, FilterVal.ops (l.filter (fun q => knownOps.contains q.1))))

theorem filter_cons_posP {α : Type} (p : α → Bool) (a : α) (l : List α)
    (h : p a = true) : (a :: l).filter p = a :: l.filter p := by
  simp [List.filter_cons, h]

theorem filter_cons_negP {α : Type} (p : α → Bool) (a : α) (l : List α)
    (h : p a = false) : (a :: l).filter p = l.filter p := by
  simp [List.filter_cons, h]

theorem not_mem_of_contains_false {l : List String} {a : String}
    (h : l.contains a = false) : ¬ a ∈ l := by
  intro hm
  have h2 : l.elem a = false := h
  rw [List.elem_eq_true_of_mem hm] at h2
  simp at h2

namespace FileAdapter

theorem matchOp_unknown (op : String) (dv : Option Value) (ov : Value)
    (h : ¬ op ∈ knownOps) : matchOp op dv ov = false := by
  unfold matchOp
  rw [if_neg (fun hc => h (by rw [hc]; decide)),
    if_neg (fun hc => h (by rw [hc]; decide)),
    if_neg (fun hc => h (by rw [hc]; decide)),
    if_neg (fun hc => h (by rw [hc]; decide)),
    if_neg (fun hc => h (by rw [hc]; decide)),
    if_neg (fun hc => h (by rw [hc]; decide)),
    if_neg (fun hc => h (by rw [hc]; decide))]

theorem sortDocs_nil (sort : Option SortSpec) : sortDocs [] sort = [] := by
  unfold sortDocs
  cases sort with
  | none => rfl
  | some s =>
    obtain ⟨fld, dir⟩ := s
    cases fld with
    | none => rfl
    | some f => rfl

theorem find_of_all_unmatched (data : List Doc) (f : FindFilter)
    (pg : Option Pagination) (st : Option SortSpec)
    (h : ∀ doc, docMatches doc (some f) = false) :
    find data ⟨some f, pg, st⟩ = [] := by
  unfold find
  have hfil : data.filter (fun d => docMatches d (some f)) = [] := by
    rw [List.filter_eq_nil_iff]
    intro a _
    simp [h a]
  simp only [hfil, sortDocs_nil]
  simp

end FileAdapter

namespace MongoAdapter

theorem mongoOpStep_unknown (sub : List (String × Value)) (op : String)
    (ov : Value) (h : ¬ op ∈ knownOps) : mongoOpStep sub op ov = sub := by
  unfold mongoOpStep
  rw [if_neg (fun hc => h (by rw [hc]; decide)),
    if_neg (fun hc => h (by rw [hc]; decide)),
    if_neg (fun hc => h (by rw [hc]; decide)),
    if_neg (fun hc => h (by rw [hc]; decide)),
    if_neg (fun hc => h (by rw [hc]; decide)),
    if_neg (fun hc => h (by rw [hc]; decide)),
    if_neg (fun hc => h (by rw [hc]; decide))]

theorem toMongoSub_fold_filter :
    ∀ (l : List (String × Value)) (sub : List (String × Value)),
      (l.filter (fun q => knownOps.contains q.1)).foldl
        (fun sub q => mongoOpStep sub q.1 q.2) sub
        = l.foldl (fun sub q => mongoOpStep sub q.1 q.2) sub
  | [], _ => rfl
  | q :: rest, sub => by
    by_cases hm : knownOps.contains q.1 = true
    · rw [filter_cons_posP (fun q : String × Value => knownOps.contains q.1) _ _ hm]
      simp only [List.foldl_cons]
      exact toMongoSub_fold_filter rest _
    · have hmf := Cache.bool_eq_false_of_not hm
      rw [filter_cons_negP (fun q : String × Value => knownOps.contains q.1) _ _ hmf]
      simp only [List.foldl_cons]
      rw [mongoOpStep_unknown sub q.1 q.2 (not_mem_of_contains_false hmf)]
      exact toMongoSub_fold_filter rest sub

theorem toMongoSub_dropUnknown (l : List (String × Value)) :
    toMongoSub (l.filter (fun q => knownOps.contains q.1)) = toMongoSub l :=
  toMongoSub_fold_filter l []

theorem toMongoFilter_some (g : FindFilter) :
    toMongoFilter (some g) = g.map (fun p =>
      (p.1, match p.2 with
            | FilterVal.lit v => MongoCond.direct v
            | FilterVal.ops l => MongoCond.subops (toMongoSub l))) := rfl

theorem toMongoFilter_dropUnknown (f : FindFilter) :
    toMongoFilter (some (dropUnknownOps f)) = toMongoFilter (some f) := by
  rw [toMongoFilter_some, toMongoFilter_some]
  unfold dropUnknownOps
  rw [List.map_map]
  induction f with
  | nil => rfl
  | cons p rest ih =>
    rw [List.map_cons, List.map_cons, ih]
    obtain ⟨k1, pv⟩ := p
    cases pv with
    | lit v => rfl
    | ops l =>
      simp only [Function.comp_apply, toMongoSub_dropUnknown]

end MongoAdapter

namespace SqliteAdapter

theorem buildWhereOp_unknown (k : String) (acc : List String × List Value)
    (op : String) (ov : Value) (h : ¬ op ∈ knownOps) :
    buildWhereOp k acc op ov = acc := by
  unfold buildWhereOp
  rw [if_neg (fun hc => h (by rw [hc]; decide)),
    if_neg (fun hc => h (by rw [hc]; decide)),
    if_neg (fun hc => h (by rw [hc]; decide)),
    if_neg (fun hc => h (by rw [hc]; decide)),
    if_neg (fun hc => h (by rw [hc]; decide)),
    if_neg (fun hc => h (by rw [hc]; decide)),
    if_neg (fun hc => h (by rw [hc]; decide))]

theorem buildWhere_fold_filter (k : String) :
    ∀ (l : List (String × Value)) (acc : List String × List Value),
      (l.filter (fun q => knownOps.contains q.1)).foldl
        (fun a q => buildWhereOp k a q.1 q.2) acc
        = l.foldl (fun a q => buildWhereOp k a q.1 q.2) acc
  | [], _ => rfl
  | q :: rest, acc => by
    by_cases hm : knownOps.contains q.1 = true
    · rw [filter_cons_posP (fun q : String × Value => knownOps.contains q.1) _ _ hm]
      simp only [List.foldl_cons]
      exact buildWhere_fold_filter k rest _
    · have hmf := Cache.bool_eq_false_of_not hm
      rw [filter_cons_negP (fun q : String × Value => knownOps.contains q.1) _ _ hmf]
      simp only [List.foldl_cons]
      rw [buildWhereOp_unknown k acc q.1 q.2 (not_mem_of_contains_false hmf)]
      exact buildWhere_fold_filter k rest acc

theorem buildWhere_entry_fold (f : FindFilter) :
    ∀ acc : List String × List Value,
      (dropUnknownOps f).foldl
        (fun acc p =>
          match p.2 with
          | FilterVal.lit v => (acc.1 ++ [quoteId p.1 ++ " = ?"], acc.2 ++ [v])
          | FilterVal.ops l => l.foldl (fun a q => buildWhereOp p.1 a q.1 q.2) acc)
        acc
      = f.foldl
        (fun acc p =>
          match p.2 with
          | FilterVal.lit v => (acc.1 ++ [quoteId p.1 ++ " = ?"], acc.2 ++ [v])
          | FilterVal.ops l => l.foldl (fun a q => buildWhereOp p.1 a q.1 q.2) acc)
        acc := by
  induction f with
  | nil => intro acc; rfl
  | cons p rest ih =>
    intro acc
    cases hp : p.2 with
    | lit v =>
      simp only [dropUnknownOps, List.map_cons, hp, List.foldl_cons]
      exact ih _
    | ops l =>
      simp only [dropUnknownOps, List.map_cons, hp, List.foldl_cons,
        buildWhere_fold_filter p.1 l acc]
      exact ih _

theorem buildWhere_some (g : FindFilter) :
    buildWhere (some g) =
      (if g.isEmpty then ("", [])
       else
        let pp :=
          g.foldl
            (fun acc p =>
              match p.2 with
              | FilterVal.lit v => (acc.1 ++ [quoteId p.1 ++ " = ?"], acc.2 ++ [v])
              | FilterVal.ops l => l.foldl (fun a q => buildWhereOp p.1 a q.1 q.2) acc)
            ([], [])
        (if pp.1.isEmpty then "" else "WHERE " ++ String.intercalate " AND " pp.1,
          pp.2)) := rfl

theorem buildWhere_dropUnknown (f : FindFilter) :
    buildWhere (some (dropUnknownOps f)) = buildWhere (some f) := by
  rw [buildWhere_some, buildWhere_some]
  have hlen : (dropUnknownOps f).isEmpty = f.isEmpty := by
    cases f with
    | nil => rfl
    | cons p rest => rfl
  by_cases hE : f.isEmpty = true
  · rw [if_pos (by rw [hlen]; exact hE), if_pos hE]
  · rw [if_neg (by rw [hlen]; exact hE), if_neg hE]
    simp only [buildWhere_entry_fold f ([], [])]

end SqliteAdapter


/-- C4 fails on the code: in the file adapter an unknown operator is not
ignored — `matches` hits `default: return false` — so a filter that would
match the row with the unknown operator absent (second conjunct) instead
excludes it (first conjunct). -/
theorem claim_C4_counterexample :
    FileAdapter.find [[("name", Value.vStr "a")]]
      ⟨some [("name", FilterVal.ops [("bogus", Value.vStr "a")])], none, none⟩ = [] ∧
    FileAdapter.find [[("name", Value.vStr "a")]]
      ⟨some [("name", FilterVal.ops [])], none, none⟩ = [[("name", Value.vStr "a")]] :=
  ⟨rfl, rfl⟩

/-- C4 amended: the mongo and sqlite translators do ignore unknown operators —
dropping every unknown-operator entry leaves their translated queries
unchanged — but the file adapter's `matches` returns false on any unknown
operator, so a filter whose operator object contains one matches zero rows
whatever the stored data. -/
theorem claim_C4 :
    (∀ (data : List Doc) (k op : String) (ov : Value) (l : List (String × Value))
       (rest : FindFilter) (pg : Option Pagination) (st : Option SortSpec),
      ¬ op ∈ knownOps → (op, ov) ∈ l →
      FileAdapter.find data ⟨some ((k, FilterVal.ops l) :: rest), pg, st⟩ = []) ∧
    (∀ f : FindFilter, MongoAdapter.toMongoFilter (some (dropUnknownOps f)) =
      MongoAdapter.toMongoFilter (some f)) ∧
    (∀ f : FindFilter, SqliteAdapter.buildWhere (some (dropUnknownOps f)) =
      SqliteAdapter.buildWhere (some f)) := by
  refine ⟨?_, MongoAdapter.toMongoFilter_dropUnknown, SqliteAdapter.buildWhere_dropUnknown⟩
  intro data k op ov l rest pg st hop hmem
  apply FileAdapter.find_of_all_unmatched
  intro doc
  have hhead : (l.all (fun q => FileAdapter.matchOp q.1 (getField doc k) q.2)) = false := by
    rw [Bool.eq_false_iff]
    intro hall
    have h2 : FileAdapter.matchOp op (getField doc k) ov = true :=
      List.all_eq_true.mp hall (op, ov) hmem
    rw [FileAdapter.matchOp_unknown op (getField doc k) ov hop] at h2
    cases h2
  simp only [FileAdapter.docMatches, List.all_cons]
  simp [hhead]

theorem claim_C4_witness :
    FileAdapter.find [[("age", Value.vNum 3)]]
      ⟨some [("age", FilterVal.ops [("fuzzy", Value.vNum 3)])], none, none⟩ = [] ∧
    MongoAdapter.toMongoFilter
      (some (dropUnknownOps [("age", FilterVal.ops [("fuzzy", Value.vNum 3), ("eq", Value.vNum 3)])])) =
      MongoAdapter.toMongoFilter
        (some [("age", FilterVal.ops [("fuzzy", Value.vNum 3), ("eq", Value.vNum 3)])]) ∧
    SqliteAdapter.buildWhere
      (some (dropUnknownOps [("age", FilterVal.ops [("fuzzy", Value.vNum 3), ("eq", Value.vNum 3)])])) =
      SqliteAdapter.buildWhere
        (some [("age", FilterVal.ops [("fuzzy", Value.vNum 3), ("eq", Value.vNum 3)])]) :=
  ⟨claim_C4.1 [[("age", Value.vNum 3)]] "age" "fuzzy" (Value.vNum 3)
      [("fuzzy", Value.vNum 3)] [] none none (by decide) (List.mem_singleton.mpr rfl),
   claim_C4.2.1 [("age", FilterVal.ops [("fuzzy", Value.vNum 3), ("eq", Value.vNum 3)])],
   claim_C4.2.2 [("age", FilterVal.ops [("fuzzy", Value.vNum 3), ("eq", Value.vNum 3)])]⟩

namespace FileAdapter

theorem matchOp_in_nonarray (dv : Option Value) (v : Value) (h : v.isArr = false) :
    matchOp "in" dv v = false := by
  unfold matchOp
  rw [if_neg (by decide), if_pos rfl]
  cases v with
  | vArr xs => simp [Value.isArr] at h
  | vNull => rfl
  | vBool b => rfl
  | vNum n => rfl
  | vStr s2 => rfl
  | vObj fs => rfl

theorem matchOp_in_empty (dv : Option Value) :
    matchOp "in" dv (Value.vArr []) = false := by
  unfold matchOp
  rw [if_neg (by decide), if_pos rfl]
  cases dv with
  | none => rfl
  | some d => rfl

theorem docMatches_single_op_false (k op : String) (ov : Value)
    (h : ∀ dv, matchOp op dv ov = false) (doc : Doc) :
    docMatches doc (some [(k, FilterVal.ops [(op, ov)])]) = false := by
  simp only [docMatches, List.all_cons, List.all_nil, Bool.and_true]
  simp [h (getField doc k)]

end FileAdapter

namespace MongoAdapter

theorem mongoOpMatches_in_empty (dv : Option Value) :
    mongoOpMatches "$in" dv (Value.vArr []) = false := by
  unfold mongoOpMatches
  rw [if_neg (by decide), if_pos rfl]
  cases dv with
  | none => rfl
  | some d => rfl

end MongoAdapter

/-- C6 fails on the code for the document store: the mongo translator wraps a
non-array `in` operand into a singleton `$in` array — identical to the
translation of `{in: [5]}` — so under the documented `$in` membership
semantics the query matches the row with `age = 5` instead of zero rows. -/
theorem claim_C6_counterexample :
    MongoAdapter.toMongoFilter (some [("age", FilterVal.ops [("in", Value.vNum 5)])]) =
      [("age", MongoAdapter.MongoCond.subops [("$in", Value.vArr [Value.vNum 5])])] ∧
    MongoAdapter.toMongoFilter (some [("age", FilterVal.ops [("in", Value.vNum 5)])]) =
      MongoAdapter.toMongoFilter (some [("age", FilterVal.ops [("in", Value.vArr [Value.vNum 5])])]) ∧
    MongoAdapter.mongoFind [[("age", Value.vNum 5)]]
      (MongoAdapter.toMongoFilter (some [("age", FilterVal.ops [("in", Value.vNum 5)])]))
      = [[("age", Value.vNum 5)]] :=
  ⟨rfl, rfl, rfl⟩

/-- C6 amended: a `{field: {in: v}}` filter with `v` not an array or an empty
array matches zero rows in the file adapter; the sqlite translator emits the
contradictory clause `WHERE 1=0` in both cases; the mongo translator yields a
zero-row `$in: []` for an empty array but coerces a non-array `v` into the
singleton `$in: [v]`, which matches rows whose field equals `v` rather than
zero rows. -/
theorem claim_C6 :
    (∀ (data : List Doc) (k : String) (v : Value) (pg : Option Pagination)
       (st : Option SortSpec), v.isArr = false →
      FileAdapter.find data ⟨some [(k, FilterVal.ops [("in", v)])], pg, st⟩ = []) ∧
    (∀ (data : List Doc) (k : String) (pg : Option Pagination)
       (st : Option SortSpec),
      FileAdapter.find data
        ⟨some [(k, FilterVal.ops [("in", Value.vArr [])])], pg, st⟩ = []) ∧
    (∀ (k : String) (v : Value), v.isArr = false →
      SqliteAdapter.buildWhere (some [(k, FilterVal.ops [("in", v)])])
        = ("WHERE 1=0", [])) ∧
    (∀ k : String,
      SqliteAdapter.buildWhere (some [(k, FilterVal.ops [("in", Value.vArr [])])])
        = ("WHERE 1=0", [])) ∧
    (∀ (data : List Doc) (k : String),
      MongoAdapter.mongoFind data
        (MongoAdapter.toMongoFilter (some [(k, FilterVal.ops [("in", Value.vArr [])])]))
        = []) ∧
    (∀ (k : String) (v : Value), v.isArr = false →
      MongoAdapter.toMongoFilter (some [(k, FilterVal.ops [("in", v)])]) =
        MongoAdapter.toMongoFilter (some [(k, FilterVal.ops [("in", Value.vArr [v])])])) := by
  refine ⟨?_, ?_, ?_, ?_, ?_, ?_⟩
  · intro data k v pg st h
    exact FileAdapter.find_of_all_unmatched data _ pg st
      (FileAdapter.docMatches_single_op_false k "in" v
        (fun dv => FileAdapter.matchOp_in_nonarray dv v h))
  · intro data k pg st
    exact FileAdapter.find_of_all_unmatched data _ pg st
      (FileAdapter.docMatches_single_op_false k "in" (Value.vArr [])
        FileAdapter.matchOp_in_empty)
  · intro k v h
    cases v with
    | vArr xs => simp [Value.isArr] at h
    | vNull => rfl
    | vBool b => rfl
    | vNum n => rfl
    | vStr s2 => rfl
    | vObj fs => rfl
  · intro k
    rfl
  · intro data k
    unfold MongoAdapter.mongoFind
    rw [List.filter_eq_nil_iff]
    intro d _
    have hq : MongoAdapter.toMongoFilter (some [(k, FilterVal.ops [("in", Value.vArr [])])])
        = [(k, MongoAdapter.MongoCond.subops [("$in", Value.vArr [])])] := rfl
    rw [hq]
    simp only [List.all_cons, List.all_nil, Bool.and_true, MongoAdapter.mongoCondMatches]
    simp [MongoAdapter.mongoOpMatches_in_empty (getField d k)]
  · intro k v h
    cases v with
    | vArr xs => simp [Value.isArr] at h
    | vNull => rfl
    | vBool b => rfl
    | vNum n => rfl
    | vStr s2 => rfl
    | vObj fs => rfl

theorem claim_C6_witness :
    FileAdapter.find [[("age", Value.vNum 5)]]
      ⟨some [("age", FilterVal.ops [("in", Value.vNum 5)])], none, none⟩ = [] ∧
    SqliteAdapter.buildWhere (some [("age", FilterVal.ops [("in", Value.vStr "x")])])
      = ("WHERE 1=0", []) ∧
    MongoAdapter.mongoFind [[("age", Value.vNum 5)]]
      (MongoAdapter.toMongoFilter (some [("age", FilterVal.ops [("in", Value.vArr [])])]))
      = [] :=
  ⟨claim_C6.1 [[("age", Value.vNum 5)]] "age" (Value.vNum 5) none none rfl,
   claim_C6.2.2.1 "age" (Value.vStr "x") rfl,
   claim_C6.2.2.2.2.1 [[("age", Value.vNum 5)]] "age"⟩


namespace FileAdapter

theorem sortDocs_none (l : List Doc) : sortDocs l none = l := rfl

theorem find_no_opts (l : List Doc) (hlen : l.length ≤ 50) :
    find l ⟨none, none, none⟩ = l := by
  unfold find
  have hfil : l.filter (fun d => docMatches d none) = l :=
    List.filter_eq_self.mpr (fun a _ => rfl)
  simp only [hfil, sortDocs_none, Option.map_none, Option.getD_none, Option.getD_some,
    List.drop_zero]
  exact List.take_of_length_le hlen

end FileAdapter

theorem some_beq_self (x : Value) : (some x == some x) = true := Value.beq_refl x

/-- C10: the file adapter's insert performs no primary-key uniqueness check:
inserting a document that explicitly carries the primary-key value `x` of an
already-stored record appends it unconditionally.  The table's ordered list
then holds both records with key `x` (both observable via an unfiltered
`find` while the table fits the default page), the sequence counter is
untouched, and `findById x` — served from the overwritten index slot —
returns the most recently inserted record. -/
theorem claim_C10 (schema : Schema) (seqNext : Option Int)
    (store : FileAdapter.Store) (doc : Doc) (uuid now : String) (x : Value)
    (r : Doc)
    (hdoc : getField doc schema.primaryKey = some x)
    (hr : r ∈ store.data) (hrx : getField r schema.primaryKey = some x)
    (h1 : schema.primaryKey ≠ "createdAt") (h2 : schema.primaryKey ≠ "updatedAt")
    (hlen : store.data.length < 50) :
    ∃ ret,
      FileAdapter.insert schema seqNext store doc uuid now =
        (⟨store.data ++ [ret], FileAdapter.mapSet store.byId x ret⟩, ret, seqNext) ∧
      getField ret schema.primaryKey = some x ∧
      FileAdapter.findById (FileAdapter.insert schema seqNext store doc uuid now).1 x
        = some ret ∧
      2 ≤ (store.data ++ [ret]).countP
        (fun d => getField d schema.primaryKey == some x) ∧
      r ∈ FileAdapter.find (store.data ++ [ret]) ⟨none, none, none⟩ ∧
      ret ∈ FileAdapter.find (store.data ++ [ret]) ⟨none, none, none⟩ := by
  have hpost : ∀ ret : Doc,
      FileAdapter.insert schema seqNext store doc uuid now =
        (⟨store.data ++ [ret], FileAdapter.mapSet store.byId x ret⟩, ret, seqNext) →
      getField ret schema.primaryKey = some x →
      FileAdapter.findById (FileAdapter.insert schema seqNext store doc uuid now).1 x
          = some ret ∧
        2 ≤ (store.data ++ [ret]).countP
          (fun d => getField d schema.primaryKey == some x) ∧
        r ∈ FileAdapter.find (store.data ++ [ret]) ⟨none, none, none⟩ ∧
        ret ∈ FileAdapter.find (store.data ++ [ret]) ⟨none, none, none⟩ := by
    intro ret heq hretx
    have hfind : FileAdapter.find (store.data ++ [ret]) ⟨none, none, none⟩
        = store.data ++ [ret] := by
      apply FileAdapter.find_no_opts
      rw [List.length_append]
      simp only [List.length_singleton]
      omega
    refine ⟨?_, ?_, ?_, ?_⟩
    · rw [heq]
      exact FileAdapter.mapGet_mapSet_self store.byId x ret
    · rw [List.countP_append]
      have hretc : (List.countP (fun d => getField d schema.primaryKey == some x) [ret]) = 1 := by
        simp only [List.countP_cons, List.countP_nil, hretx, some_beq_self x]
        rfl
      have hrc : 0 < store.data.countP (fun d => getField d schema.primaryKey == some x) :=
        List.countP_pos_iff.mpr ⟨r, hr, by rw [hrx]; exact some_beq_self x⟩
      omega
    · rw [hfind]
      exact List.mem_append_left _ hr
    · rw [hfind]
      exact List.mem_append_right _ (List.mem_singleton.mpr rfl)
  by_cases ht : schema.timestamps = true
  · have hretx : getField (setField (setField (setField doc schema.primaryKey x)
        "createdAt" (Value.vStr now)) "updatedAt" (Value.vStr now))
        schema.primaryKey = some x := by
      rw [getField_setField_ne _ _ _ _ (fun hc => h2 hc.symm),
        getField_setField_ne _ _ _ _ (fun hc => h1 hc.symm), getField_setField_self]
    have heq : FileAdapter.insert schema seqNext store doc uuid now =
        (⟨store.data ++ [setField (setField (setField doc schema.primaryKey x)
            "createdAt" (Value.vStr now)) "updatedAt" (Value.vStr now)],
          FileAdapter.mapSet store.byId x
            (setField (setField (setField doc schema.primaryKey x)
              "createdAt" (Value.vStr now)) "updatedAt" (Value.vStr now))⟩,
         setField (setField (setField doc schema.primaryKey x)
           "createdAt" (Value.vStr now)) "updatedAt" (Value.vStr now), seqNext) := by
      simp only [FileAdapter.insert, hdoc, ht, if_true, hretx]
    obtain ⟨ha, hb, hc, hd⟩ := hpost _ heq hretx
    exact ⟨_, heq, hretx, ha, hb, hc, hd⟩
  · have hretx : getField (setField doc schema.primaryKey x) schema.primaryKey
        = some x := getField_setField_self doc schema.primaryKey x
    have heq : FileAdapter.insert schema seqNext store doc uuid now =
        (⟨store.data ++ [setField doc schema.primaryKey x],
          FileAdapter.mapSet store.byId x (setField doc schema.primaryKey x)⟩,
         setField doc schema.primaryKey x, seqNext) := by
      simp only [FileAdapter.insert, hdoc, ht, Bool.false_eq_true, if_false, hretx]
    obtain ⟨ha, hb, hc, hd⟩ := hpost _ heq hretx
    exact ⟨_, heq, hretx, ha, hb, hc, hd⟩

def c10schema : Schema := ⟨"user", "id", false, ⟨true, PkStrategy.uuid, 1, 1⟩⟩

def c10r : Doc := [("id", Value.vNum 1), ("name", Value.vStr "A")]

def c10store : FileAdapter.Store := ⟨[c10r], [(Value.vNum 1, c10r)]⟩

def c10doc : Doc := [("id", Value.vNum 1), ("name", Value.vStr "B")]

theorem claim_C10_witness :
    2 ≤ ((FileAdapter.insert c10schema none c10store c10doc "u" "t").1.data).countP
      (fun d => getField d c10schema.primaryKey == some (Value.vNum 1)) ∧
    FileAdapter.findById (FileAdapter.insert c10schema none c10store c10doc "u" "t").1
      (Value.vNum 1)
      = some (FileAdapter.insert c10schema none c10store c10doc "u" "t").2.1 := by
  obtain ⟨ret, heq, hretx, hbyid, hcount, hrmem, hretmem⟩ :=
    claim_C10 c10schema none c10store c10doc "u" "t" (Value.vNum 1) c10r rfl
      (List.mem_singleton.mpr rfl) rfl (by decide) (by decide) (by decide)
  constructor
  · rw [heq]
    exact hcount
  · rw [heq]
    rw [heq] at hbyid
    exact hbyid


end Autocrud
